import Mathlib

/-!
Verification of the hwpx OPC package layer (hwpx/opc/package.py,
hwpx/opc/xml_utils.py) and the image-id helpers of hwpx/document.py.

Python byte strings are modelled as lists of naturals, Python str as
Lean String.  The external lxml library is modelled by an abstract
record of functions (Lxml); every theorem about package operations is
universally quantified over that record.
-/

set_option maxRecDepth 4000

/-- Python bytes are modelled as lists of naturals (one per byte). -/
abbrev ByteStr := List Nat

/-- ASCII encoding of a Lean string literal into model bytes.  Used only
for ASCII literals appearing in the Python source. -/
def bytesOf (s : String) : ByteStr := s.toList.map Char.toNat

/-- Model of Python startswith on plain lists: the first argument is the
pattern, the second the scanned list. -/
def listStartsWith [DecidableEq α] : List α → List α → Bool
  | [], _ => true
  | _ :: _, [] => false
  | p :: ps, x :: xs => p = x && listStartsWith ps xs

/-- Model of the Python membership test pat in data (contiguous
substring occurrence). -/
def hasInfix [DecidableEq α] (pat : List α) : List α → Bool
  | [] => listStartsWith pat []
  | x :: xs => listStartsWith pat (x :: xs) || hasInfix pat xs

/-- Model of Python find: index of the first occurrence of pat, none
when absent (Python returns -1). -/
def findSubIdx [DecidableEq α] (pat : List α) : List α → Option Nat
  | [] => if listStartsWith pat [] then some 0 else none
  | x :: xs =>
    if listStartsWith pat (x :: xs) then some 0
    else (findSubIdx pat xs).map (· + 1)

/-- Structural worker for replaceAll.  Each step consumes at least one
list element and one unit of fuel, so fuel equal to the list length is
always sufficient and the zero-fuel branch is unreachable from
replaceAll. -/
def replaceAllAux [DecidableEq α] (old new : List α) : Nat → List α → List α
  | 0, s => s
  | _ + 1, [] => []
  | fuel + 1, x :: xs =>
    if listStartsWith old (x :: xs) then
      new ++ replaceAllAux old new fuel (xs.drop (old.length - 1))
    else
      x :: replaceAllAux old new fuel xs

/-- Model of Python bytes.replace(old, new): leftmost, non-overlapping
replacement of every occurrence.  All call sites in the source use a
non-empty old pattern. -/
def replaceAll [DecidableEq α] (old new : List α) (s : List α) : List α :=
  replaceAllAux old new s.length s

/-- ASCII whitespace bytes stripped by Python bytes.lstrip(). -/
def isAsciiWs (b : Nat) : Bool :=
  b = 32 || b = 9 || b = 10 || b = 11 || b = 12 || b = 13

/-- Model of Python bytes.lstrip() with no argument. -/
def pyLstrip (data : ByteStr) : ByteStr := data.dropWhile isAsciiWs

/-- The seven legacy-to-canonical namespace byte replacements of
xml_utils._HWPML_2016_TO_2011, in source order. -/
def hwpml2016to2011 : List (ByteStr × ByteStr) :=
  [ (bytesOf "http://www.hancom.co.kr/hwpml/2016/paragraph",
     bytesOf "http://www.hancom.co.kr/hwpml/2011/paragraph"),
    (bytesOf "http://www.hancom.co.kr/hwpml/2016/head",
     bytesOf "http://www.hancom.co.kr/hwpml/2011/head"),
    (bytesOf "http://www.hancom.co.kr/hwpml/2016/section",
     bytesOf "http://www.hancom.co.kr/hwpml/2011/section"),
    (bytesOf "http://www.hancom.co.kr/hwpml/2016/core",
     bytesOf "http://www.hancom.co.kr/hwpml/2011/core"),
    (bytesOf "http://www.hancom.co.kr/hwpml/2016/master-page",
     bytesOf "http://www.hancom.co.kr/hwpml/2011/master-page"),
    (bytesOf "http://www.hancom.co.kr/hwpml/2016/history",
     bytesOf "http://www.hancom.co.kr/hwpml/2011/history"),
    (bytesOf "http://www.hancom.co.kr/hwpml/2016/app",
     bytesOf "http://www.hancom.co.kr/hwpml/2011/app") ]

/-- Model of xml_utils.normalize_hwpml_namespaces: each pair is applied
in order, guarded by a membership test exactly as in the source. -/
def normalizeHwpmlNamespaces (data : ByteStr) : ByteStr :=
  hwpml2016to2011.foldl
    (fun d p => if hasInfix p.1 d then replaceAll p.1 p.2 d else d) data

/-- Model of xml_utils.extract_xml_declaration. -/
def extractXmlDeclaration (data : ByteStr) : Option ByteStr :=
  let stripped := pyLstrip data
  if listStartsWith (bytesOf "<?xml") stripped then
    match findSubIdx (bytesOf "?>") stripped with
    | none => none
    | some e => some (stripped.take (e + 2))
  else none

mutual
/-- Minimal XML element value: expanded (Clark-notation) tag, attribute
list in document order, child elements.  Text nodes are irrelevant to
every claim and are not modelled.  The children are carried as a
mutually defined forest so that recursion over the tree is structural
and kernel-reducible; the rest of the development works with the plain
child list through toList and xmlElem. -/
inductive Xml where
  | elem (tag : String) (attrs : List (String × String)) (children : XmlForest)
/-- The child forest of an element. -/
inductive XmlForest where
  | nil
  | cons (head : Xml) (tail : XmlForest)
end

/-- The child list of a forest. -/
def XmlForest.toList : XmlForest → List Xml
  | .nil => []
  | .cons c rest => c :: rest.toList

/-- The forest of a child list. -/
def forestOf : List Xml → XmlForest
  | [] => .nil
  | c :: rest => .cons c (forestOf rest)

/-- Element constructor taking the children as a plain list. -/
def xmlElem (t : String) (a : List (String × String)) (cs : List Xml) : Xml :=
  .elem t a (forestOf cs)

/-- Expanded tag of an element. -/
def Xml.tag : Xml → String
  | .elem t _ _ => t

/-- Attribute list of an element. -/
def Xml.attrs : Xml → List (String × String)
  | .elem _ a _ => a

/-- Child elements of an element. -/
def Xml.children : Xml → List Xml
  | .elem _ _ c => c.toList

mutual
/-- Proper descendants of an element, in document order. -/
def xmlDescOf : Xml → List Xml
  | .elem _ _ cs => xmlDescForest cs
/-- Elements of a forest together with their proper descendants, in
document order. -/
def xmlDescForest : XmlForest → List Xml
  | .nil => []
  | .cons c rest => c :: (xmlDescOf c ++ xmlDescForest rest)
end

/-- All proper descendants of the elements of a list, in document
order, each element followed by its own descendants. -/
def xmlDescList (l : List Xml) : List Xml := xmlDescForest (forestOf l)

/-- First attribute value for a key (lxml attrib lookup). -/
def attrGet (attrs : List (String × String)) (k : String) : Option String :=
  (attrs.find? (fun a => a.1 = k)).map (fun a => a.2)

/-- Attribute lookup with a default, as in Python attrib.get(k, d). -/
def attrGetD (attrs : List (String × String)) (k d : String) : String :=
  (attrGet attrs k).getD d

/-- lxml attrib assignment: replace in place when the key exists,
append otherwise. -/
def attrSet (attrs : List (String × String)) (k v : String) : List (String × String) :=
  if (attrs.find? (fun a => a.1 = k)).isSome then
    attrs.map (fun a => if a.1 = k then (k, v) else a)
  else attrs ++ [(k, v)]

/-- Python str.startswith, via the underlying character lists. -/
def pyStartsWith (s pre : String) : Bool := listStartsWith pre.data s.data

/-- Local part of an expanded Clark-notation tag: the text after the
closing brace when the tag starts with an opening brace. -/
def localName (tag : String) : String :=
  if listStartsWith [Char.ofNat 123] tag.data then
    String.mk ((tag.data.dropWhile (fun c => c ≠ Char.ofNat 125)).drop 1)
  else tag

/-- Abstract model of the lxml etree functions the package layer uses.
parse returns none on an XML syntax error.  serialize is
etree.tostring without an XML declaration, serializeDecl with one.
declaredNs models iter_declared_namespaces on already-normalized
bytes. -/
structure Lxml where
  parse : ByteStr → Option Xml
  serialize : Xml → ByteStr
  serializeDecl : Xml → ByteStr
  declaredNs : ByteStr → List (String × String)

/-- Model of xml_utils.parse_xml: normalize the legacy namespaces at
byte level, then parse. -/
def parseXml (L : Lxml) (data : ByteStr) : Option Xml :=
  L.parse (normalizeHwpmlNamespaces data)

/-- Errors of the package layer.  structureError models
HwpxStructureError, packageError the HwpxPackageError base class, and
xmlSyntaxError the lxml parse exception, which is not a
HwpxPackageError in the source. -/
inductive PyErr where
  | structureError (msg : String)
  | packageError (msg : String)
  | xmlSyntaxError
deriving DecidableEq

/-- Whether an error is an HwpxStructureError. -/
def PyErr.isStructure : PyErr → Bool
  | .structureError _ => true
  | _ => false

/-- Whether an Except result is an HwpxStructureError. -/
def resultIsStructureError : Except PyErr α → Bool
  | .error e => e.isStructure
  | .ok _ => false

/-- A rootfile entry of META-INF/container.xml. -/
structure RootFile where
  fullPath : String
  mediaType : Option String
deriving DecidableEq

/-- Model of version.xml state (class VersionInfo): the parsed root
element, declared namespaces, the raw captured XML declaration bytes,
and the dirty flag. -/
structure VersionInfo where
  element : Xml
  namespaces : List (String × String)
  xmlDeclaration : Option ByteStr
  dirty : Bool

/-- Model of VersionInfo.from_bytes (ignoring the always-false initial
dirty flag value it sets explicitly). -/
def VersionInfo.fromBytes (L : Lxml) (data : ByteStr) : Option VersionInfo :=
  (parseXml L data).map (fun e =>
    ⟨e, L.declaredNs (normalizeHwpmlNamespaces data), extractXmlDeclaration data, false⟩)

/-- Model of VersionInfo.set: update the attribute and mark dirty. -/
def VersionInfo.set (vi : VersionInfo) (k v : String) : VersionInfo :=
  { vi with
    element := xmlElem vi.element.tag (attrSet vi.element.attrs k v) vi.element.children
    dirty := true }

/-- Model of VersionInfo.to_bytes: serialize without a declaration and
prepend the captured declaration bytes when they are non-empty (the
Python truthiness test). -/
def VersionInfo.toBytes (L : Lxml) (vi : VersionInfo) : ByteStr :=
  let body := L.serialize vi.element
  match vi.xmlDeclaration with
  | some d => if d.isEmpty then body else d ++ body
  | none => body

/-- Model of VersionInfo.mark_clean. -/
def VersionInfo.markClean (vi : VersionInfo) : VersionInfo := { vi with dirty := false }

/-- Path constant HwpxPackage.CONTAINER_PATH. -/
def containerPath : String := "META-INF/container.xml"

/-- Path constant HwpxPackage.VERSION_PATH. -/
def versionPath : String := "version.xml"

/-- Path constant HwpxPackage.MIMETYPE_PATH. -/
def mimetypePath : String := "mimetype"

/-- Path constant HwpxPackage.MANIFEST_PATH. -/
def manifestPath : String := "Contents/content.hpf"

/-- Path constant HwpxPackage.HEADER_PATH. -/
def headerPath : String := "Contents/header.xml"

/-- Lookup in the ordered part mapping (Python dict access). -/
def alLookup (k : String) (m : List (String × β)) : Option β :=
  (m.find? (fun a => a.1 = k)).map (fun a => a.2)

/-- Python dict assignment: update in place when the key exists,
append otherwise, preserving insertion order. -/
def alInsert (k : String) (v : β) (m : List (String × β)) : List (String × β) :=
  if (m.find? (fun a => a.1 = k)).isSome then
    m.map (fun a => if a.1 = k then (k, v) else a)
  else m ++ [(k, v)]

/-- Python dict deletion. -/
def alErase (k : String) (m : List (String × β)) : List (String × β) :=
  m.filter (fun a => a.1 ≠ k)

/-- Keys of the mapping in insertion order. -/
def alKeys (m : List (String × β)) : List String := m.map (fun a => a.1)

/-- Python path.replace(two-character backslash, slash): every backslash
becomes a forward slash (HwpxPackage._normalize_path). -/
def normalizePath (p : String) : String :=
  String.mk (p.data.map (fun c => if c = Char.ofNat 92 then Char.ofNat 47 else c))

/-- The Python truthy attribute chain a.get(k1) or a.get(k2) or ...:
the first present, non-empty value, none when every value is missing or
empty (both are falsy). -/
def firstTruthyAttr (attrs : List (String × String)) : List String → Option String
  | [] => none
  | k :: ks =>
    match attrGet attrs k with
    | some v => if v ≠ "" then some v else firstTruthyAttr attrs ks
    | none => firstTruthyAttr attrs ks

/-- One rootfile element of container.xml, as read by
HwpxPackage._parse_container. -/
def rootFileOfElem (e : Xml) : Except PyErr RootFile :=
  match firstTruthyAttr e.attrs ["full-path", "fullPath", "full_path"] with
  | none => .error (.structureError "container.xml contains a rootfile without full-path")
  | some fp =>
    .ok ⟨fp, firstTruthyAttr e.attrs ["media-type", "mediaType", "media_type"]⟩

/-- Model of HwpxPackage._parse_container. -/
def parseContainer (L : Lxml) : Option ByteStr → Except PyErr (List RootFile)
  | none => .error (.structureError "HWPX package is missing META-INF/container.xml")
  | some data =>
    match parseXml L data with
    | none => .error .xmlSyntaxError
    | some root => do
      let elems := (xmlDescList root.children).filter (fun e => localName e.tag = "rootfile")
      let rootfiles ← elems.mapM rootFileOfElem
      if rootfiles.isEmpty then
        .error (.structureError "container.xml does not declare any rootfiles")
      else
        .ok rootfiles

/-- Model of HwpxPackage._parse_version. -/
def parseVersion (L : Lxml) : Option ByteStr → Except PyErr VersionInfo
  | none => .error (.structureError "HWPX package is missing version.xml")
  | some data =>
    match VersionInfo.fromBytes L data with
    | none => .error .xmlSyntaxError
    | some vi => .ok vi

/-- Whether some part path starts with Contents/ or Content/ (the test
of HwpxPackage._validate_structure). -/
def hasContents (files : List (String × ByteStr)) : Bool :=
  (alKeys files).any (fun p => pyStartsWith p "Contents/" || pyStartsWith p "Content/")

/-- RootFile.ensure_exists applied to each rootfile in order. -/
def ensureRootfiles (files : List (String × ByteStr)) : List RootFile → Option PyErr
  | [] => none
  | r :: rest =>
    if (alLookup r.fullPath files).isSome then ensureRootfiles files rest
    else some (.structureError ("Root content " ++ r.fullPath ++ " declared in container.xml is missing"))

/-- Model of HwpxPackage._validate_structure: the first error it would
raise, none when the structure is valid. -/
def validateStructure (files : List (String × ByteStr)) (rootfiles : List RootFile) : Option PyErr :=
  match ensureRootfiles files rootfiles with
  | some e => some e
  | none =>
    if hasContents files then none
    else some (.structureError "HWPX package does not contain a Contents directory")

/-- The mutable state of a HwpxPackage instance: the part mapping, the
parsed rootfiles and version info, the mimetype (kept as bytes; the
utf-8 decode and re-encode of the source cancel on the valid inputs
modelled here), and the resolver caches. -/
structure HwpxPackage where
  files : List (String × ByteStr)
  rootfiles : List RootFile
  version : VersionInfo
  mimetype : ByteStr
  manifestTree : Option Xml
  spineCache : Option (List String)
  sectionPathsCache : Option (List String)
  headerPathsCache : Option (List String)
  masterPagePathsCache : Option (List String)
  historyPathsCache : Option (List String)
  versionPathCache : Option String
  versionPathCacheResolved : Bool

/-- Model of HwpxPackage.__init__: fresh caches, then
_validate_structure. -/
def initPackage (files : List (String × ByteStr)) (rootfiles : List RootFile)
    (vi : VersionInfo) (mt : ByteStr) : Except PyErr HwpxPackage :=
  match validateStructure files rootfiles with
  | some e => .error e
  | none => .ok ⟨files, rootfiles, vi, mt, none, none, none, none, none, none, none, false⟩

/-- Model of HwpxPackage.open, starting from the part mapping read out
of the ZIP archive: mimetype presence check, container parse, version
parse, then construction. -/
def openPkg (L : Lxml) (files : List (String × ByteStr)) : Except PyErr HwpxPackage :=
  match alLookup mimetypePath files with
  | none => .error (.structureError "HWPX package is missing the mandatory mimetype file")
  | some mt => do
    let rfs ← parseContainer L (alLookup containerPath files)
    let vi ← parseVersion L (alLookup versionPath files)
    initPackage files rfs vi mt

/-- Model of HwpxPackage._invalidate_caches. -/
def invalidateCaches (pkg : HwpxPackage) (changed : String) : HwpxPackage :=
  if changed = manifestPath then
    { pkg with
      manifestTree := none
      spineCache := none
      sectionPathsCache := none
      headerPathsCache := none
      masterPagePathsCache := none
      historyPathsCache := none
      versionPathCache := none
      versionPathCacheResolved := false }
  else if changed = versionPath then
    { pkg with versionPathCacheResolved := false }
  else pkg

/-- Model of HwpxPackage.write.  The returned pair is the state of the
mutable package object after the call together with the raised error,
if any: parse failures for the special paths happen before any
mutation, while _validate_structure runs after the mapping and the
derived fields have been updated. -/
def writePkg (L : Lxml) (pkg : HwpxPackage) (path : String) (data : ByteStr) :
    HwpxPackage × Option PyErr :=
  let norm := normalizePath path
  if norm = mimetypePath then
    let p1 := { pkg with files := alInsert norm data pkg.files }
    let p2 := invalidateCaches p1 norm
    let p3 := { p2 with mimetype := data }
    (p3, validateStructure p3.files p3.rootfiles)
  else if norm = containerPath then
    match parseContainer L (some data) with
    | .error e => (pkg, some e)
    | .ok rfs =>
      let p1 := { pkg with files := alInsert norm data pkg.files }
      let p2 := invalidateCaches p1 norm
      let p3 := { p2 with rootfiles := rfs }
      (p3, validateStructure p3.files p3.rootfiles)
  else if norm = versionPath then
    match parseVersion L (some data) with
    | .error e => (pkg, some e)
    | .ok vi =>
      let p1 := { pkg with files := alInsert norm data pkg.files }
      let p2 := invalidateCaches p1 norm
      let p3 := { p2 with version := vi }
      (p3, validateStructure p3.files p3.rootfiles)
  else
    let p1 := { pkg with files := alInsert norm data pkg.files }
    let p2 := invalidateCaches p1 norm
    (p2, validateStructure p2.files p2.rootfiles)

/-- Model of HwpxPackage.delete.  The del statement runs before
_validate_structure, so a validation failure leaves the entry
removed. -/
def deletePkg (pkg : HwpxPackage) (path : String) : HwpxPackage × Option PyErr :=
  let norm := normalizePath path
  if (alLookup norm pkg.files).isNone then
    (pkg, some (.packageError ("File " ++ norm ++ " is not present in the package")))
  else if norm = mimetypePath ∨ norm = containerPath ∨ norm = versionPath then
    (pkg, some (.structureError "Cannot remove mandatory files"))
  else
    let p1 := { pkg with files := alErase norm pkg.files }
    (p1, validateStructure p1.files p1.rootfiles)

/-- Model of HwpxPackage.has_part. -/
def hasPart (pkg : HwpxPackage) (name : String) : Bool :=
  (alLookup (normalizePath name) pkg.files).isSome

/-- Part payload accepted by HwpxPackage.set_part. -/
inductive PartPayload where
  | bytes (data : ByteStr)
  | text (data : ByteStr)
  | xml (element : Xml)

/-- Model of HwpxPackage.set_part: str payloads are their utf-8 bytes,
Element payloads are serialized with an XML declaration, then write. -/
def setPart (L : Lxml) (pkg : HwpxPackage) (name : String) (payload : PartPayload) :
    HwpxPackage × Option PyErr :=
  match payload with
  | .bytes d => writePkg L pkg name d
  | .text d => writePkg L pkg name d
  | .xml e => writePkg L pkg name (L.serializeDecl e)

/-- ZIP compression method of an entry. -/
inductive Compression where
  | stored
  | deflated
deriving DecidableEq

/-- One entry of the written ZIP stream, in write order. -/
structure ZipEntry where
  name : String
  data : ByteStr
  compression : Compression
deriving DecidableEq

/-- Python sorted() over the part paths: lexicographic string order by
code points, which is the order of the Mathlib String linear order. -/
def pySortedKeys (ks : List String) : List String :=
  ks.mergeSort (fun a b => decide (a ≤ b))

/-- The package state after the mimetype re-injection at the top of
HwpxPackage._save_to_zip. -/
def saveP1 (pkg : HwpxPackage) : HwpxPackage :=
  { pkg with files := alInsert mimetypePath pkg.mimetype pkg.files }

/-- The package state after the conditional version.xml rewrite of
HwpxPackage._save_to_zip. -/
def saveP2 (L : Lxml) (pkg : HwpxPackage) : HwpxPackage :=
  if (saveP1 pkg).version.dirty then
    { saveP1 pkg with
      files := alInsert versionPath
        (VersionInfo.toBytes L (saveP1 pkg).version) (saveP1 pkg).files
      version := (saveP1 pkg).version.markClean }
  else saveP1 pkg

/-- The ZIP entry stream written by _save_to_zip and _write_mimetype
from a validated package state: the stored mimetype entry first, then
every other part in sorted path order with deflate compression. -/
def zipEntriesOf (pkg : HwpxPackage) : List ZipEntry :=
  ZipEntry.mk mimetypePath ((alLookup mimetypePath pkg.files).getD []) .stored ::
    ((pySortedKeys (alKeys pkg.files)).filter (fun n => n ≠ mimetypePath)).map
      (fun n => ZipEntry.mk n ((alLookup n pkg.files).getD []) .deflated)

/-- Model of HwpxPackage._save_to_zip together with
HwpxPackage._write_mimetype: re-inject the mimetype bytes, rewrite
version.xml when dirty, validate, then stream the entries.  Returns
the package state after the call, the raised error if any, and the
ZIP entries written (empty when validation raised first). -/
def saveToZip (L : Lxml) (pkg : HwpxPackage) :
    HwpxPackage × Option PyErr × List ZipEntry :=
  match validateStructure (saveP2 L pkg).files (saveP2 L pkg).rootfiles with
  | some e => (saveP2 L pkg, some e, [])
  | none => (saveP2 L pkg, none, zipEntriesOf (saveP2 L pkg))

/-- The update loop at the top of HwpxPackage.save: apply each update
through set_part, stopping at the first raised error. -/
def applyUpdates (L : Lxml) (pkg : HwpxPackage) :
    List (String × PartPayload) → HwpxPackage × Option PyErr
  | [] => (pkg, none)
  | (name, payload) :: rest =>
    match setPart L pkg name payload with
    | (p, some e) => (p, some e)
    | (p, none) => applyUpdates L p rest

/-- Model of HwpxPackage.save for the byte-returning destination:
apply the updates, then _save_to_zip into a fresh buffer. -/
def savePkg (L : Lxml) (pkg : HwpxPackage) (updates : List (String × PartPayload)) :
    HwpxPackage × Option PyErr × List ZipEntry :=
  match applyUpdates L pkg updates with
  | (p, some e) => (p, some e, [])
  | (p, none) => saveToZip L p

/-- Clark-notation tag in the OPF namespace used by the manifest
queries. -/
def opfTag (l : String) : String := "\x7bhttp://www.idpf.org/2007/opf/\x7d" ++ l

/-- Model of PurePosixPath(p).name for the ordinary relative paths the
source applies it to: the last non-empty slash-separated component. -/
def posixName (p : String) : String :=
  String.mk (((p.data.splitOn (Char.ofNat 47)).filter (fun c => c ≠ [])).getLastD [])

/-- Python str.lower for the ASCII manifest metadata. -/
def pyLower (s : String) : String := String.mk (s.data.map Char.toLower)

/-- The join of HwpxPackage._normalized_manifest_value. -/
def joinWithSpace : List String → String
  | [] => ""
  | [s] => s
  | s :: rest => s ++ " " ++ joinWithSpace rest

/-- Model of HwpxPackage._normalized_manifest_value. -/
def normalizedManifestValue (e : Xml) : String :=
  let values := [attrGetD e.attrs "id" "", attrGetD e.attrs "href" "",
    attrGetD e.attrs "media-type" "", attrGetD e.attrs "properties" ""]
  joinWithSpace ((values.filter (fun v => v ≠ "")).map pyLower)

/-- Model of HwpxPackage._manifest_matches. -/
def manifestMatches (e : Xml) (candidates : List String) : Bool :=
  candidates.any (fun c => c ≠ "" && hasInfix c.data (normalizedManifestValue e).data)

/-- The item elements returned by findall of opf:manifest then
opf:item, in document order. -/
def manifestItemsOf (tree : Xml) : List Xml :=
  (tree.children.filter (fun m => m.tag = opfTag "manifest")).flatMap
    (fun m => m.children.filter (fun i => i.tag = opfTag "item"))

/-- The itemref elements of the spine, in document order. -/
def spineItemrefsOf (tree : Xml) : List Xml :=
  (tree.children.filter (fun m => m.tag = opfTag "spine")).flatMap
    (fun m => m.children.filter (fun i => i.tag = opfTag "itemref"))

/-- Model of HwpxPackage.manifest_tree: the parsed manifest part,
cached.  Errors (missing part, XML syntax error) happen before any
mutation, so the failing result carries no state. -/
def manifestTreeM (L : Lxml) (pkg : HwpxPackage) : Except PyErr (Xml × HwpxPackage) :=
  match pkg.manifestTree with
  | some t => .ok (t, pkg)
  | none =>
    match alLookup manifestPath pkg.files with
    | none => .error (.packageError "File Contents/content.hpf is not present in the package")
    | some d =>
      match parseXml L d with
      | none => .error .xmlSyntaxError
      | some x => .ok (x, { pkg with manifestTree := some x })

/-- The id-to-href dictionary built by _resolve_spine_paths: only items
with a present id and a non-empty href, later entries overwriting
earlier ones. -/
def spineHrefMap (items : List Xml) : List (String × String) :=
  items.foldl
    (fun m it =>
      match attrGet it.attrs "id" with
      | none => m
      | some i =>
        let h := attrGetD it.attrs "href" ""
        if h ≠ "" then alInsert i h m else m)
    []

/-- Model of HwpxPackage._resolve_spine_paths, cached. -/
def resolveSpinePathsM (L : Lxml) (pkg : HwpxPackage) :
    Except PyErr (List String × HwpxPackage) :=
  match pkg.spineCache with
  | some c => .ok (c, pkg)
  | none => do
    let (tree, p1) ← manifestTreeM L pkg
    let hrefs := spineHrefMap (manifestItemsOf tree)
    let paths := (spineItemrefsOf tree).foldr
      (fun ir acc =>
        match attrGet ir.attrs "idref" with
        | none => acc
        | some idref =>
          if idref = "" then acc
          else
            match alLookup idref hrefs with
            | none => acc
            | some h => if h ≠ "" then h :: acc else acc)
      []
    .ok (paths, { p1 with spineCache := some paths })

/-- Model of HwpxPackage.section_paths, cached, with the filename
fallback scan of the archive. -/
def sectionPathsM (L : Lxml) (pkg : HwpxPackage) :
    Except PyErr (List String × HwpxPackage) :=
  match pkg.sectionPathsCache with
  | some c => .ok (c, pkg)
  | none => do
    let (spine, p1) ← resolveSpinePathsM L pkg
    let paths := spine.filter (fun p => p ≠ "" && pyStartsWith (posixName p) "section")
    let paths :=
      if paths.isEmpty then
        (alKeys p1.files).filter (fun n => pyStartsWith (posixName n) "section")
      else paths
    .ok (paths, { p1 with sectionPathsCache := some paths })

/-- Model of HwpxPackage.header_paths, cached, with the
Contents/header.xml fallback. -/
def headerPathsM (L : Lxml) (pkg : HwpxPackage) :
    Except PyErr (List String × HwpxPackage) :=
  match pkg.headerPathsCache with
  | some c => .ok (c, pkg)
  | none => do
    let (spine, p1) ← resolveSpinePathsM L pkg
    let paths := spine.filter (fun p => p ≠ "" && pyStartsWith (posixName p) "header")
    let paths :=
      if paths.isEmpty && hasPart p1 headerPath then [headerPath] else paths
    .ok (paths, { p1 with headerPathsCache := some paths })

/-- Model of HwpxPackage.master_page_paths, cached, with the filename
fallback scan. -/
def masterPagePathsM (L : Lxml) (pkg : HwpxPackage) :
    Except PyErr (List String × HwpxPackage) :=
  match pkg.masterPagePathsCache with
  | some c => .ok (c, pkg)
  | none => do
    let (tree, p1) ← manifestTreeM L pkg
    let paths := ((manifestItemsOf tree).filter
      (fun it => manifestMatches it ["masterpage", "master-page"]
        && attrGetD it.attrs "href" "" ≠ "")).map (fun it => attrGetD it.attrs "href" "")
    let paths :=
      if paths.isEmpty then
        (alKeys p1.files).filter (fun n =>
          hasInfix "master".data (pyLower (posixName n)).data
            && hasInfix "page".data (pyLower (posixName n)).data)
      else paths
    .ok (paths, { p1 with masterPagePathsCache := some paths })

/-- Model of HwpxPackage.history_paths, cached, with the filename
fallback scan. -/
def historyPathsM (L : Lxml) (pkg : HwpxPackage) :
    Except PyErr (List String × HwpxPackage) :=
  match pkg.historyPathsCache with
  | some c => .ok (c, pkg)
  | none => do
    let (tree, p1) ← manifestTreeM L pkg
    let paths := ((manifestItemsOf tree).filter
      (fun it => manifestMatches it ["history"]
        && attrGetD it.attrs "href" "" ≠ "")).map (fun it => attrGetD it.attrs "href" "")
    let paths :=
      if paths.isEmpty then
        (alKeys p1.files).filter (fun n => hasInfix "history".data (pyLower (posixName n)).data)
      else paths
    .ok (paths, { p1 with historyPathsCache := some paths })

/-- Python str.strip for the manifest href values. -/
def pyStrip (s : String) : String :=
  String.mk (((s.data.dropWhile (fun c => isAsciiWs c.toNat)).reverse.dropWhile
    (fun c => isAsciiWs c.toNat)).reverse)

/-- Model of HwpxPackage.version_path, cached through the resolved
flag: the first manifest item matching the version keyword with a
non-empty stripped href, falling back to version.xml when that part
exists. -/
def versionPathM (L : Lxml) (pkg : HwpxPackage) :
    Except PyErr (Option String × HwpxPackage) :=
  if pkg.versionPathCacheResolved then .ok (pkg.versionPathCache, pkg)
  else do
    let (tree, p1) ← manifestTreeM L pkg
    let found := (manifestItemsOf tree).findSome?
      (fun it =>
        if manifestMatches it ["version"] then
          let h := pyStrip (attrGetD it.attrs "href" "")
          if h ≠ "" then some h else none
        else none)
    let found :=
      match found with
      | some h => some h
      | none => if hasPart p1 versionPath then some versionPath else none
    .ok (found, { p1 with versionPathCache := found, versionPathCacheResolved := true })

/-- Structural worker for the decimal digits of a natural number, most
significant digit first.  Fuel at least the number itself is always
sufficient, so the zero-fuel case is only ever reached for zero. -/
def decDigitsAux : Nat → Nat → List Nat
  | 0, n => [n]
  | fuel + 1, n => if n < 10 then [n] else decDigitsAux fuel (n / 10) ++ [n % 10]

/-- Decimal digits of a natural number, most significant first. -/
def decDigits (n : Nat) : List Nat := decDigitsAux n n

/-- The numeric value of a most-significant-first digit list, used to
show the decimal rendering is injective. -/
def decVal (ds : List Nat) : Nat := ds.foldl (fun a d => a * 10 + d) 0

/-- The character of a single decimal digit. -/
def digitChar (d : Nat) : Char := Char.ofNat (48 + d)

/-- Zero padding to width four, as the Python format spec 04d. -/
def padZeros4 (l : List Char) : List Char := List.replicate (4 - l.length) (Char.ofNat 48) ++ l

/-- The candidate id string BIN followed by the zero-padded decimal
suffix, the Python f-string BIN followed by the 04d format of n. -/
def binFormat (n : Nat) : String :=
  String.mk (Char.ofNat 66 :: Char.ofNat 73 :: Char.ofNat 78 :: padZeros4 ((decDigits n).map digitChar))

/-- The while loop of HwpxDocument.add_image: starting candidate
suffix, first formatted id not among the existing ids.  The loop in
the source is unbounded; at most the number of existing ids can
collide, so fuel one larger than that is always sufficient. -/
def findFreeId (eids : List String) : Nat → Nat → String
  | n, 0 => binFormat n
  | n, fuel + 1 => if binFormat n ∈ eids then findFreeId eids (n + 1) fuel else binFormat n

/-- The automatic item-id allocation of HwpxDocument.add_image: the
existing ids are the id attributes of the header bin items collected
into a set, and the candidate suffix starts at the size of that set
plus one. -/
def allocateImageItemId (binItems : List (List (String × String))) : String :=
  let eids := (binItems.map (fun bi => attrGetD bi "id" "")).dedup
  findFreeId eids (eids.length + 1) (eids.length + 1)

/-- Modelled from the spec: the header bin-item registry kept by
HwpxOxmlHeader (hwpx/oxml/document.py is not under src/).  Each bin
item is its attribute mapping, and list_bin_items returns the entries
in order. -/
structure HwpxHeaderModel where
  binItems : List (List (String × String))

/-- The document state HwpxDocument exposes to the image helpers: the
headers of the oxml root and the backing package. -/
structure HwpxDocModel where
  headers : List HwpxHeaderModel
  pkg : HwpxPackage

/-- The id allocation performed by HwpxDocument.add_image when no
explicit item id is passed. -/
def addImageAutoId (doc : HwpxDocModel) : String :=
  match doc.headers.head? with
  | some h => allocateImageItemId h.binItems
  | none => allocateImageItemId []

/-- Modelled from the spec: HwpxPackage._manifest_element (not under
src/; the Manifest Resolver parses the package manifest).  Returns the
opf manifest child of the parsed manifest part, none when the part is
missing or does not parse. -/
def manifestElement (L : Lxml) (pkg : HwpxPackage) : Option Xml :=
  match alLookup manifestPath pkg.files with
  | none => none
  | some d =>
    match parseXml L d with
    | none => none
    | some root => root.children.find? (fun m => m.tag = opfTag "manifest")

/-- Drop every opf item with the given id from the manifest children
of the parsed manifest root. -/
def dropManifestItem (root : Xml) (itemId : String) : Xml :=
  xmlElem root.tag root.attrs
    (root.children.map (fun m =>
      if m.tag = opfTag "manifest" then
        xmlElem m.tag m.attrs
          (m.children.filter (fun i =>
            ¬ (i.tag = opfTag "item" ∧ attrGet i.attrs "id" = some itemId)))
      else m))

/-- Modelled from the spec: HwpxPackage.remove_manifest_item (not
under src/; image removal reverses the manifest registration and
reports whether any component was actually present).  Removes the
manifest item with the given id when one exists, rewriting the
manifest part, and returns whether one was removed. -/
def removeManifestItem (L : Lxml) (pkg : HwpxPackage) (itemId : String) :
    Bool × HwpxPackage :=
  match alLookup manifestPath pkg.files with
  | none => (false, pkg)
  | some d =>
    match parseXml L d with
    | none => (false, pkg)
    | some root =>
      if (manifestItemsOf root).any (fun it => attrGet it.attrs "id" = some itemId) then
        let p1 := { pkg with
          files := alInsert manifestPath (L.serializeDecl (dropManifestItem root itemId)) pkg.files }
        (true, invalidateCaches p1 manifestPath)
      else (false, pkg)

/-- Modelled from the spec: HwpxOxmlHeader.remove_bin_item (not under
src/; image removal reverses the header bin-item registration and
reports whether it was present).  Removes the bin items whose id
attribute equals the given id and reports whether any was present. -/
def headerRemoveBinItem (h : HwpxHeaderModel) (binId : String) : Bool × HwpxHeaderModel :=
  if h.binItems.any (fun bi => attrGet bi "id" = some binId) then
    (true, ⟨h.binItems.filter (fun bi => ¬ attrGet bi "id" = some binId)⟩)
  else (false, h)

/-- The header scan at the top of HwpxDocument.remove_image: the first
bin item whose BinData value starts with the item id gives the binItem
id attribute and, when the BinData value is non-empty, the BinData
part path. -/
def findBinItemMatch (itemId : String) :
    List (List (String × String)) → Option (Option String × Option String)
  | [] => none
  | bi :: rest =>
    let v := attrGetD bi "BinData" ""
    if pyStartsWith v itemId then
      some (attrGet bi "id", if v ≠ "" then some ("BinData/" ++ v) else none)
    else findBinItemMatch itemId rest

/-- Model of HwpxDocument.remove_image.  The result is the raised
error if any, the returned flag, and the document state after the
call. -/
def removeImage (L : Lxml) (doc : HwpxDocModel) (itemId : String) :
    Option PyErr × Bool × HwpxDocModel :=
  let header? := doc.headers.head?
  let found :=
    match header? with
    | some h => (findBinItemMatch itemId h.binItems).getD (none, none)
    | none => (none, none)
  let numId? := found.1
  let path? :=
    match found.2 with
    | some p => some p
    | none =>
      match manifestElement L doc.pkg with
      | none => none
      | some mel =>
        match (mel.children.filter (fun i => i.tag = opfTag "item")).find?
            (fun it => attrGet it.attrs "id" = some itemId) with
        | none => none
        | some it =>
          let href := attrGetD it.attrs "href" ""
          if href ≠ "" then some href else none
  let step1 :=
    match header?, numId? with
    | some h, some nid =>
      let r := headerRemoveBinItem h nid
      (r.1, { doc with headers := r.2 :: doc.headers.tail })
    | _, _ => (false, doc)
  let step2 :=
    let r := removeManifestItem L step1.2.pkg itemId
    (step1.1 || r.1, { step1.2 with pkg := r.2 })
  match path? with
  | some p =>
    if hasPart step2.2.pkg p then
      let r := deletePkg step2.2.pkg p
      match r.2 with
      | some e => (some e, step2.1, { step2.2 with pkg := r.1 })
      | none => (none, true, { step2.2 with pkg := r.1 })
    else (none, step2.1, step2.2)
  | none => (none, step2.1, step2.2)

/-- Whether an Except result is a success. -/
def exceptIsOk : Except ε α → Bool
  | .ok _ => true
  | .error _ => false

/-- Concrete container document used by the executable examples. -/
def exContainerXml : Xml :=
  xmlElem "container" []
    [xmlElem "rootfile"
      [("full-path", "Contents/content.hpf"), ("media-type", "application/hwpml-package+xml")] []]

/-- Concrete version document used by the executable examples. -/
def exVersionXml : Xml := xmlElem "HCFVersion" [("targetApplication", "WORDPROCESSOR")] []

/-- Bytes standing for the container part in the examples. -/
def exContainerBytes : ByteStr := bytesOf "<container/>"

/-- Bytes standing for the version part in the examples. -/
def exVersionBytes : ByteStr := bytesOf "<HCFVersion/>"

/-- Bytes standing for the manifest part in the examples. -/
def exManifestBytes : ByteStr := bytesOf "<package/>"

/-- A concrete lxml model: parses exactly the two example documents,
fails on everything else. -/
def exL : Lxml where
  parse := fun d =>
    if d = exContainerBytes then some exContainerXml
    else if d = exVersionBytes then some exVersionXml
    else none
  serialize := fun _ => bytesOf "<v/>"
  serializeDecl := fun _ => bytesOf "<x/>"
  declaredNs := fun _ => []

/-- A concrete lxml model whose parse always fails. -/
def exLNone : Lxml where
  parse := fun _ => none
  serialize := fun _ => []
  serializeDecl := fun _ => []
  declaredNs := fun _ => []

/-- Example part mapping of a well-formed package. -/
def exFiles : List (String × ByteStr) :=
  [(mimetypePath, bytesOf "application/hwp+zip"),
   (containerPath, exContainerBytes),
   (versionPath, exVersionBytes),
   (manifestPath, exManifestBytes)]

/-- The version info obtained by parsing the example version bytes. -/
def exVersionInfo : VersionInfo := ⟨exVersionXml, [], none, false⟩

/-- The package state produced by opening the example part mapping. -/
def exPkg : HwpxPackage :=
  ⟨exFiles, [⟨"Contents/content.hpf", some "application/hwpml-package+xml"⟩],
    exVersionInfo, bytesOf "application/hwp+zip",
    none, none, none, none, none, none, none, false⟩

/-- Example part mapping missing the version part. -/
def exFilesNoVersion : List (String × ByteStr) :=
  [(mimetypePath, bytesOf "application/hwp+zip"), (containerPath, exContainerBytes)]

/-- Example part mapping missing the version part and carrying a
malformed container document. -/
def exFilesBadContainer : List (String × ByteStr) :=
  [(mimetypePath, bytesOf "application/hwp+zip"), (containerPath, bytesOf "<")]

/-- The byte string on which double namespace normalization differs
from a single pass: a legacy paragraph URI whose final letter also
serves as the first letter of a second, trailing legacy URI. -/
def exC8 : ByteStr :=
  bytesOf "http://www.hancom.co.kr/hwpml/2016/paragraphttp://www.hancom.co.kr/hwpml/2016/paragraph"

/-- Input with a leading blank before the XML declaration. -/
def exC9 : ByteStr := 32 :: bytesOf "<?xml version=1.0?>"

/-- Example document with one header whose only registered bin item id
is BIN0002. -/
def exDocC4 : HwpxDocModel := ⟨[⟨[[("id", "BIN0002")]]⟩], exPkg⟩

/-- Example document with no headers. -/
def exDocEmpty : HwpxDocModel := ⟨[], exPkg⟩

/-! Helper lemmas about the dictionary model. -/

theorem alLookup_map_update_self {β} (k : String) (v : β) :
    ∀ m : List (String × β), (m.find? (fun a => a.1 = k)).isSome = true →
      alLookup k (m.map (fun a => if a.1 = k then (k, v) else a)) = some v := by
  intro m
  induction m with
  | nil => simp [List.find?]
  | cons a t ih =>
    by_cases h : a.1 = k
    · intro _
      simp [alLookup, List.find?, h]
    · intro hs
      rw [List.find?_cons_of_neg _ (by simp [h])] at hs
      have := ih hs
      rw [List.map_cons, if_neg h, alLookup,
        List.find?_cons_of_neg _ (by simp [h])]
      exact this

theorem alLookup_append_single_self {β} (k : String) (v : β) :
    ∀ m : List (String × β), (m.find? (fun a => a.1 = k)).isSome = false →
      alLookup k (m ++ [(k, v)]) = some v := by
  intro m
  induction m with
  | nil => simp [alLookup, List.find?]
  | cons a t ih =>
    by_cases h : a.1 = k
    · intro hs
      rw [List.find?_cons_of_pos _ (by simp [h])] at hs
      simp at hs
    · intro hs
      rw [List.find?_cons_of_neg _ (by simp [h])] at hs
      have := ih hs
      rw [List.cons_append, alLookup, List.find?_cons_of_neg _ (by simp [h])]
      exact this

theorem alLookup_alInsert_self {β} (k : String) (v : β) (m : List (String × β)) :
    alLookup k (alInsert k v m) = some v := by
  by_cases h : (m.find? (fun a => a.1 = k)).isSome = true
  · simpa [alInsert, h] using alLookup_map_update_self k v m h
  · have h2 : (m.find? (fun a => a.1 = k)).isSome = false := by
      revert h
      cases (m.find? (fun a => a.1 = k)).isSome <;> simp
    simpa [alInsert, h2] using alLookup_append_single_self k v m h2

theorem alLookup_map_update_ne {β} (k q : String) (v : β) (h : q ≠ k) :
    ∀ m : List (String × β),
      alLookup q (m.map (fun a => if a.1 = k then (k, v) else a)) = alLookup q m := by
  intro m
  induction m with
  | nil => simp [alLookup]
  | cons a t ih =>
    by_cases hk : a.1 = k
    · have hq2 : ¬ a.1 = q := by rw [hk]; exact fun hh => h hh.symm
      have hkq : ¬ k = q := fun hh => h hh.symm
      simp only [List.map_cons, if_pos hk, alLookup]
      rw [List.find?_cons_of_neg _ (by simp [hkq]),
        List.find?_cons_of_neg _ (by simp [hq2])]
      exact ih
    · simp only [List.map_cons, if_neg hk, alLookup]
      by_cases hq : a.1 = q
      · rw [List.find?_cons_of_pos _ (by simp [hq]),
          List.find?_cons_of_pos _ (by simp [hq])]
      · rw [List.find?_cons_of_neg _ (by simp [hq]),
          List.find?_cons_of_neg _ (by simp [hq])]
        exact ih

theorem alLookup_append_single_ne {β} (k q : String) (v : β) (h : q ≠ k) :
    ∀ m : List (String × β), alLookup q (m ++ [(k, v)]) = alLookup q m := by
  intro m
  induction m with
  | nil =>
    have : ¬ k = q := fun hh => h hh.symm
    simp [alLookup, List.find?, this]
  | cons a t ih =>
    by_cases hq : a.1 = q
    · simp only [List.cons_append, alLookup]
      rw [List.find?_cons_of_pos _ (by simp [hq]),
        List.find?_cons_of_pos _ (by simp [hq])]
    · simp only [List.cons_append, alLookup]
      rw [List.find?_cons_of_neg _ (by simp [hq]),
        List.find?_cons_of_neg _ (by simp [hq])]
      exact ih

theorem alLookup_alInsert_ne {β} (k q : String) (v : β) (h : q ≠ k)
    (m : List (String × β)) : alLookup q (alInsert k v m) = alLookup q m := by
  by_cases hs : (m.find? (fun a => a.1 = k)).isSome = true
  · simpa [alInsert, hs] using alLookup_map_update_ne k q v h m
  · have h2 : (m.find? (fun a => a.1 = k)).isSome = false := by
      revert hs
      cases (m.find? (fun a => a.1 = k)).isSome <;> simp
    simpa [alInsert, h2] using alLookup_append_single_ne k q v h m

theorem alLookup_isSome_of_mem_keys {β} (k : String) :
    ∀ m : List (String × β), k ∈ alKeys m → ∃ v, alLookup k m = some v := by
  intro m
  induction m with
  | nil => simp [alKeys]
  | cons a t ih =>
    intro hm
    by_cases h : a.1 = k
    · refine ⟨a.2, ?_⟩
      rw [alLookup, List.find?_cons_of_pos _ (by simp [h])]
      simp
    · have hmem : k ∈ alKeys t := by
        rcases List.mem_cons.mp hm with h1 | h1
        · exact absurd h1.symm h
        · exact h1
      rcases ih hmem with ⟨v, hv⟩
      refine ⟨v, ?_⟩
      rw [alLookup, List.find?_cons_of_neg _ (by simp [h])]
      exact hv

/-! Helper lemmas about structural validation. -/

theorem ensureRootfiles_isStructure (files : List (String × ByteStr)) :
    ∀ rfs e, ensureRootfiles files rfs = some e → e.isStructure = true := by
  intro rfs
  induction rfs with
  | nil => simp [ensureRootfiles]
  | cons r t ih =>
    intro e he
    unfold ensureRootfiles at he
    by_cases h : (alLookup r.fullPath files).isSome = true
    · simp only [h, if_true] at he
      exact ih e he
    · simp only [h, if_false, Bool.false_eq_true] at he
      cases he
      rfl

theorem validateStructure_isStructure (files : List (String × ByteStr))
    (rfs : List RootFile) (e : PyErr) (h : validateStructure files rfs = some e) :
    e.isStructure = true := by
  unfold validateStructure at h
  cases hr : ensureRootfiles files rfs with
  | some e2 =>
    rw [hr] at h
    cases h
    exact ensureRootfiles_isStructure files rfs e hr
  | none =>
    rw [hr] at h
    by_cases hc : hasContents files = true
    · simp [hc] at h
    · have hc2 : hasContents files = false := by
        revert hc
        cases hasContents files <;> simp
      simp only [hc2, Bool.false_eq_true, if_false] at h
      cases h
      rfl

theorem hasContents_of_validate_none (files : List (String × ByteStr))
    (rfs : List RootFile) (h : validateStructure files rfs = none) :
    hasContents files = true := by
  unfold validateStructure at h
  cases hr : ensureRootfiles files rfs with
  | some e2 => rw [hr] at h; cases h
  | none =>
    rw [hr] at h
    by_cases hc : hasContents files = true
    · exact hc
    · have hc2 : hasContents files = false := by
        revert hc
        cases hasContents files <;> simp
      simp [hc2] at h

theorem validate_some_of_noContents (files : List (String × ByteStr))
    (rfs : List RootFile) (h : hasContents files = false) :
    ∃ e, validateStructure files rfs = some e ∧ e.isStructure = true := by
  cases hv : validateStructure files rfs with
  | some e => exact ⟨e, rfl, validateStructure_isStructure files rfs e hv⟩
  | none => exact absurd (hasContents_of_validate_none files rfs hv) (by simp [h])

/-- C1 (amended): HwpxPackage.open raises HwpxStructureError when the
mimetype part is absent; when the container part is absent; and when
the version part is absent, provided the container part parsed
successfully.  (As stated, the claim fails: the version-presence check
runs only after the container part has been parsed, so a missing
version part combined with a malformed container part surfaces the XML
syntax error instead; see the counterexample.) -/
theorem c1_open_missing_mandatory_parts (L : Lxml) (files : List (String × ByteStr)) :
    (alLookup mimetypePath files = none → resultIsStructureError (openPkg L files) = true)
    ∧ (alLookup containerPath files = none → resultIsStructureError (openPkg L files) = true)
    ∧ (∀ rfs, parseContainer L (alLookup containerPath files) = .ok rfs →
        alLookup versionPath files = none → resultIsStructureError (openPkg L files) = true) := by
  refine ⟨?_, ?_, ?_⟩
  · intro h
    simp [openPkg, h, resultIsStructureError, PyErr.isStructure]
  · intro h
    cases hm : alLookup mimetypePath files with
    | none => simp [openPkg, hm, resultIsStructureError, PyErr.isStructure]
    | some mt =>
      simp [openPkg, hm, h, parseContainer, Bind.bind, Except.bind,
        resultIsStructureError, PyErr.isStructure]
  · intro rfs hok hv
    cases hm : alLookup mimetypePath files with
    | none => simp [openPkg, hm, resultIsStructureError, PyErr.isStructure]
    | some mt =>
      simp [openPkg, hm, hok, hv, parseVersion, Bind.bind, Except.bind,
        resultIsStructureError, PyErr.isStructure]

/-- C1 counterexample: a package whose version part is absent but whose
container part is malformed XML makes open surface the XML syntax
error, which is not an HwpxStructureError, contradicting the claim
that any archive missing the version part raises HwpxStructureError. -/
theorem c1_counterexample :
    alLookup versionPath exFilesBadContainer = none
    ∧ openPkg exLNone exFilesBadContainer = .error PyErr.xmlSyntaxError
    ∧ resultIsStructureError (openPkg exLNone exFilesBadContainer) = false :=
  ⟨rfl, rfl, by decide⟩

/-- C1 witness: a concrete archive with mimetype and a well-formed
container but no version part raises HwpxStructureError. -/
theorem c1_witness : resultIsStructureError (openPkg exL exFilesNoVersion) = true :=
  (c1_open_missing_mandatory_parts exL exFilesNoVersion).2.2
    [⟨"Contents/content.hpf", some "application/hwpml-package+xml"⟩] rfl rfl

/-- C3 counterexample: on a package opened from a concrete archive,
deleting the only Contents part raises HwpxStructureError, yet the
part mapping has already lost the entry, contradicting the claim that
a failing delete leaves the mapping exactly as before. -/
theorem c3_counterexample :
    openPkg exL exFiles = .ok exPkg
    ∧ (deletePkg exPkg manifestPath).2 =
        some (PyErr.structureError
          "Root content Contents/content.hpf declared in container.xml is missing")
    ∧ (deletePkg exPkg manifestPath).1.files ≠ exPkg.files :=
  ⟨rfl, by decide, by decide⟩

/-- Cache invalidation never changes the part mapping. -/
theorem invalidateCaches_files (pkg : HwpxPackage) (p : String) :
    (invalidateCaches pkg p).files = pkg.files := by
  unfold invalidateCaches
  split
  · rfl
  · split <;> rfl

/-- Cache invalidation never changes the rootfiles. -/
theorem invalidateCaches_rootfiles (pkg : HwpxPackage) (p : String) :
    (invalidateCaches pkg p).rootfiles = pkg.rootfiles := by
  unfold invalidateCaches
  split
  · rfl
  · split <;> rfl

/-- Cache invalidation for a path other than the manifest and version
paths is the identity. -/
theorem invalidateCaches_other (pkg : HwpxPackage) (p : String)
    (h1 : ¬ p = manifestPath) (h2 : ¬ p = versionPath) :
    invalidateCaches pkg p = pkg := by
  simp [invalidateCaches, h1, h2]

/-- Cache invalidation for the version path only resets the resolved
flag. -/
theorem invalidateCaches_versionPath (pkg : HwpxPackage) :
    invalidateCaches pkg versionPath = { pkg with versionPathCacheResolved := false } := by
  have h1 : ¬ versionPath = manifestPath := by decide
  simp [invalidateCaches, h1]

/-- C3 (amended): errors raised before the mutation point leave the
package state unchanged: delete on a missing path, delete on a
mandatory path, and write whose container or version payload fails to
parse.  However the structural validation of write and delete runs
after the mapping is updated, so when it fails the mutation is
retained: whenever delete passes the two preliminary checks its
erasure is committed, and whenever write passes the payload parse its
insertion is committed, regardless of the validation outcome. -/
theorem c3_mutation_scope (L : Lxml) (pkg : HwpxPackage) (path : String) (data : ByteStr) :
    ((alLookup (normalizePath path) pkg.files).isNone = true →
      deletePkg pkg path =
        (pkg, some (PyErr.packageError
          ("File " ++ normalizePath path ++ " is not present in the package"))))
    ∧ ((alLookup (normalizePath path) pkg.files).isSome = true →
        (normalizePath path = mimetypePath ∨ normalizePath path = containerPath ∨
          normalizePath path = versionPath) →
        deletePkg pkg path = (pkg, some (PyErr.structureError "Cannot remove mandatory files")))
    ∧ (∀ e, normalizePath path = containerPath → parseContainer L (some data) = .error e →
        writePkg L pkg path data = (pkg, some e))
    ∧ (∀ e, normalizePath path = versionPath → parseVersion L (some data) = .error e →
        writePkg L pkg path data = (pkg, some e))
    ∧ ((alLookup (normalizePath path) pkg.files).isSome = true →
        ¬(normalizePath path = mimetypePath ∨ normalizePath path = containerPath ∨
          normalizePath path = versionPath) →
        (deletePkg pkg path).1.files = alErase (normalizePath path) pkg.files)
    ∧ ((normalizePath path = containerPath → exceptIsOk (parseContainer L (some data)) = true) →
        (normalizePath path = versionPath → exceptIsOk (parseVersion L (some data)) = true) →
        (writePkg L pkg path data).1.files = alInsert (normalizePath path) data pkg.files) := by
  have hcm : ¬ containerPath = mimetypePath := by decide
  have hvm : ¬ versionPath = mimetypePath := by decide
  have hvc : ¬ versionPath = containerPath := by decide
  refine ⟨?_, ?_, ?_, ?_, ?_, ?_⟩
  · intro h
    simp [deletePkg, h]
  · intro hsome hmand
    have h1 : (alLookup (normalizePath path) pkg.files).isNone = false := by
      rw [Option.isNone_eq_false_iff, Option.isSome_iff_exists]
      exact Option.isSome_iff_exists.mp hsome
    simp [deletePkg, h1, hmand]
  · intro e hc he
    rw [writePkg, hc, if_neg hcm, if_pos rfl, he]
  · intro e hv he
    rw [writePkg, hv, if_neg hvm, if_neg hvc, if_pos rfl, he]
  · intro hsome hmand
    have h1 : (alLookup (normalizePath path) pkg.files).isNone = false := by
      rw [Option.isNone_eq_false_iff, Option.isSome_iff_exists]
      exact Option.isSome_iff_exists.mp hsome
    simp [deletePkg, h1, hmand]
  · intro hc hv
    by_cases h1 : normalizePath path = mimetypePath
    · rw [writePkg, h1, if_pos rfl]
      simpa using invalidateCaches_files _ mimetypePath
    · by_cases h2 : normalizePath path = containerPath
      · cases hp : parseContainer L (some data) with
        | error e => rw [hp] at hc; simp [h2, exceptIsOk] at hc
        | ok rfs =>
          rw [writePkg, h2, if_neg hcm, if_pos rfl, hp]
          simpa using invalidateCaches_files _ containerPath
      · by_cases h3 : normalizePath path = versionPath
        · cases hp : parseVersion L (some data) with
          | error e => rw [hp] at hv; simp [h3, exceptIsOk] at hv
          | ok vi =>
            rw [writePkg, h3, if_neg hvm, if_neg hvc, if_pos rfl, hp]
            simpa using invalidateCaches_files _ versionPath
        · rw [writePkg, if_neg h1, if_neg h2, if_neg h3]
          simpa using invalidateCaches_files _ (normalizePath path)

/-- C3 witness: the pre-mutation failures leave the concrete example
package untouched. -/
theorem c3_witness :
    deletePkg exPkg "absent.xml" =
      (exPkg, some (PyErr.packageError
        ("File " ++ normalizePath "absent.xml" ++ " is not present in the package")))
    ∧ deletePkg exPkg versionPath =
        (exPkg, some (PyErr.structureError "Cannot remove mandatory files")) :=
  ⟨(c3_mutation_scope exL exPkg "absent.xml" []).1 (by decide),
    (c3_mutation_scope exL exPkg versionPath []).2.1 (by decide)
      (Or.inr (Or.inr (by decide)))⟩

/-- C6: a write to the manifest path clears every resolver cache
(manifest tree, spine, section, header, master-page, history and
version-path caches), while a completed write to the version path
resets only the version-path resolution flag and leaves the other
caches exactly as they were; the path resolvers return the previously
cached results without recomputation whenever their cache is set. -/
theorem c6_cache_invalidation (L : Lxml) (pkg : HwpxPackage) (data : ByteStr) :
    ((writePkg L pkg manifestPath data).1.manifestTree = none
      ∧ (writePkg L pkg manifestPath data).1.spineCache = none
      ∧ (writePkg L pkg manifestPath data).1.sectionPathsCache = none
      ∧ (writePkg L pkg manifestPath data).1.headerPathsCache = none
      ∧ (writePkg L pkg manifestPath data).1.masterPagePathsCache = none
      ∧ (writePkg L pkg manifestPath data).1.historyPathsCache = none
      ∧ (writePkg L pkg manifestPath data).1.versionPathCache = none
      ∧ (writePkg L pkg manifestPath data).1.versionPathCacheResolved = false)
    ∧ (∀ vi, parseVersion L (some data) = .ok vi →
        (writePkg L pkg versionPath data).1.sectionPathsCache = pkg.sectionPathsCache
        ∧ (writePkg L pkg versionPath data).1.headerPathsCache = pkg.headerPathsCache
        ∧ (writePkg L pkg versionPath data).1.masterPagePathsCache = pkg.masterPagePathsCache
        ∧ (writePkg L pkg versionPath data).1.historyPathsCache = pkg.historyPathsCache
        ∧ (writePkg L pkg versionPath data).1.manifestTree = pkg.manifestTree
        ∧ (writePkg L pkg versionPath data).1.spineCache = pkg.spineCache
        ∧ (writePkg L pkg versionPath data).1.versionPathCache = pkg.versionPathCache
        ∧ (writePkg L pkg versionPath data).1.versionPathCacheResolved = false)
    ∧ (∀ c, pkg.sectionPathsCache = some c → sectionPathsM L pkg = .ok (c, pkg))
    ∧ (∀ c, pkg.headerPathsCache = some c → headerPathsM L pkg = .ok (c, pkg))
    ∧ (∀ c, pkg.masterPagePathsCache = some c → masterPagePathsM L pkg = .ok (c, pkg))
    ∧ (∀ c, pkg.historyPathsCache = some c → historyPathsM L pkg = .ok (c, pkg)) := by
  have hnm : normalizePath manifestPath = manifestPath := by decide
  have hm1 : ¬ manifestPath = mimetypePath := by decide
  have hm2 : ¬ manifestPath = containerPath := by decide
  have hm3 : ¬ manifestPath = versionPath := by decide
  have hnv : normalizePath versionPath = versionPath := by decide
  have hvm : ¬ versionPath = mimetypePath := by decide
  have hvc : ¬ versionPath = containerPath := by decide
  refine ⟨?_, ?_, ?_, ?_, ?_, ?_⟩
  · rw [writePkg, hnm, if_neg hm1, if_neg hm2, if_neg hm3]
    simp [invalidateCaches]
  · intro vi hok
    rw [writePkg, hnv, if_neg hvm, if_neg hvc, if_pos rfl, hok]
    simp [invalidateCaches_versionPath]
  · intro c h
    simp [sectionPathsM, h]
  · intro c h
    simp [headerPathsM, h]
  · intro c h
    simp [masterPagePathsM, h]
  · intro c h
    simp [historyPathsM, h]

/-- C6 witness: on the concrete example package the manifest write
clears the section cache, a version write with a parsable payload
preserves a set section cache while resetting the resolved flag, and a
set section cache is returned as is. -/
theorem c6_witness :
    (writePkg exL exPkg manifestPath (bytesOf "<p2/>")).1.sectionPathsCache = none
    ∧ ((writePkg exL { exPkg with sectionPathsCache := some ["Contents/section0.xml"] }
        versionPath exVersionBytes).1.sectionPathsCache = some ["Contents/section0.xml"]
      ∧ (writePkg exL { exPkg with sectionPathsCache := some ["Contents/section0.xml"] }
        versionPath exVersionBytes).1.versionPathCacheResolved = false)
    ∧ sectionPathsM exL { exPkg with sectionPathsCache := some ["Contents/section0.xml"] } =
        .ok (["Contents/section0.xml"],
          { exPkg with sectionPathsCache := some ["Contents/section0.xml"] }) :=
  ⟨(c6_cache_invalidation exL exPkg (bytesOf "<p2/>")).1.2.2.1,
    ⟨((c6_cache_invalidation exL
        { exPkg with sectionPathsCache := some ["Contents/section0.xml"] }
        exVersionBytes).2.1 exVersionInfo rfl).1,
      ((c6_cache_invalidation exL
        { exPkg with sectionPathsCache := some ["Contents/section0.xml"] }
        exVersionBytes).2.1 exVersionInfo rfl).2.2.2.2.2.2.2⟩,
    (c6_cache_invalidation exL
      { exPkg with sectionPathsCache := some ["Contents/section0.xml"] }
      (bytesOf "<p2/>")).2.2.1 ["Contents/section0.xml"] rfl⟩

/-- C7: VersionInfo.set marks the version info dirty; serialization
prepends the originally captured declaration bytes when they are
non-empty; on save the version part is rewritten, via to_bytes, and
the flag cleared exactly when the flag was set, and when the flag is
clear the stored version.xml bytes are left untouched by the save. -/
theorem c7_version_dirty_gate (L : Lxml) (pkg : HwpxPackage) (vi : VersionInfo) (k v : String) :
    (VersionInfo.set vi k v).dirty = true
    ∧ ((vi.xmlDeclaration.getD []).isEmpty = false →
        VersionInfo.toBytes L vi = vi.xmlDeclaration.getD [] ++ L.serialize vi.element)
    ∧ (pkg.version.dirty = true →
        (saveToZip L pkg).1.version.dirty = false
        ∧ alLookup versionPath (saveToZip L pkg).1.files =
            some (VersionInfo.toBytes L pkg.version))
    ∧ (pkg.version.dirty = false →
        (saveToZip L pkg).1.version = pkg.version
        ∧ alLookup versionPath (saveToZip L pkg).1.files = alLookup versionPath pkg.files) := by
  have hvm : ¬ (versionPath : String) = mimetypePath := by decide
  refine ⟨rfl, ?_, ?_, ?_⟩
  · intro h
    cases hd : vi.xmlDeclaration with
    | none => rw [hd] at h; simp at h
    | some d =>
      rw [hd] at h
      simp only [Option.getD_some] at h ⊢
      rw [VersionInfo.toBytes, hd]
      simp [h]
  · intro h
    have hfst : (saveToZip L pkg).1 = saveP2 L pkg := by
      unfold saveToZip
      split <;> rfl
    have hp2 : saveP2 L pkg =
        { saveP1 pkg with
          files := alInsert versionPath
            (VersionInfo.toBytes L pkg.version) (saveP1 pkg).files
          version := pkg.version.markClean } := by
      unfold saveP2
      have h2 : (saveP1 pkg).version.dirty = true := h
      simp only [h2, if_true]
      rfl
    rw [hfst, hp2]
    constructor
    · simp [VersionInfo.markClean]
    · simpa using alLookup_alInsert_self versionPath
        (VersionInfo.toBytes L pkg.version) (saveP1 pkg).files
  · intro h
    have hfst : (saveToZip L pkg).1 = saveP2 L pkg := by
      unfold saveToZip
      split <;> rfl
    have hp2 : saveP2 L pkg = saveP1 pkg := by
      unfold saveP2
      have : (saveP1 pkg).version.dirty = false := h
      simp [this]
    rw [hfst, hp2]
    constructor
    · rfl
    · simpa using alLookup_alInsert_ne mimetypePath versionPath pkg.mimetype hvm pkg.files

/-- C7 witness: on the concrete package a set call makes the save
rewrite version.xml and clear the flag, while the clean package keeps
its stored version.xml bytes. -/
theorem c7_witness :
    ((saveToZip exL
        { exPkg with version := VersionInfo.set exVersionInfo "tag" "v1" }).1.version.dirty = false
      ∧ alLookup versionPath
          (saveToZip exL { exPkg with version := VersionInfo.set exVersionInfo "tag" "v1" }).1.files =
        some (VersionInfo.toBytes exL (VersionInfo.set exVersionInfo "tag" "v1")))
    ∧ ((saveToZip exL exPkg).1.version = exPkg.version
      ∧ alLookup versionPath (saveToZip exL exPkg).1.files = alLookup versionPath exPkg.files) :=
  ⟨(c7_version_dirty_gate exL
      { exPkg with version := VersionInfo.set exVersionInfo "tag" "v1" }
      exVersionInfo "tag" "v1").2.2.1 rfl,
    (c7_version_dirty_gate exL exPkg exVersionInfo "tag" "v1").2.2.2 rfl⟩

/-- A successful _save_to_zip run means the structural validation of
the final part mapping succeeded. -/
theorem saveToZip_fst (L : Lxml) (pkg : HwpxPackage) :
    (saveToZip L pkg).1 = saveP2 L pkg := by
  unfold saveToZip
  split <;> rfl

/-- A successful _save_to_zip run means the structural validation of
the final part mapping succeeded. -/
theorem saveToZip_success (L : Lxml) (pkg : HwpxPackage)
    (h : (saveToZip L pkg).2.1 = none) :
    validateStructure (saveToZip L pkg).1.files (saveToZip L pkg).1.rootfiles = none := by
  rw [saveToZip_fst]
  unfold saveToZip at h
  split at h
  · simp at h
  · next heq => exact heq

/-- C10: every successful open, write, delete and save leaves a part
mapping containing a path starting with Contents/ or Content/; when
the mapping reaching structural validation has no such part the
operation fails with HwpxStructureError (for open, provided the
container and version parts parsed); in particular an archive holding
only the three mandatory parts can never be opened. -/
theorem c10_contents_part_required (L : Lxml) (files : List (String × ByteStr))
    (pkg : HwpxPackage) (path : String) (data : ByteStr) :
    (∀ p, openPkg L files = .ok p → hasContents p.files = true)
    ∧ ((writePkg L pkg path data).2 = none →
        hasContents (writePkg L pkg path data).1.files = true)
    ∧ ((deletePkg pkg path).2 = none →
        hasContents (deletePkg pkg path).1.files = true)
    ∧ ((saveToZip L pkg).2.1 = none →
        hasContents (saveToZip L pkg).1.files = true)
    ∧ (hasContents files = false →
        ∀ rfs, parseContainer L (alLookup containerPath files) = .ok rfs →
        ∀ vi, parseVersion L (alLookup versionPath files) = .ok vi →
        resultIsStructureError (openPkg L files) = true)
    ∧ (∀ b1 b2 b3 : ByteStr, exceptIsOk (openPkg L
        [(mimetypePath, b1), (containerPath, b2), (versionPath, b3)]) = false) := by
  refine ⟨?_, ?_, ?_, ?_, ?_, ?_⟩
  · intro p h
    cases hm : alLookup mimetypePath files with
    | none => simp [openPkg, hm] at h
    | some mt =>
      cases hc : parseContainer L (alLookup containerPath files) with
      | error e => simp [openPkg, hm, hc, Bind.bind, Except.bind] at h
      | ok rfs =>
        cases hv : parseVersion L (alLookup versionPath files) with
        | error e => simp [openPkg, hm, hc, hv, Bind.bind, Except.bind] at h
        | ok vi =>
          cases hval : validateStructure files rfs with
          | some e =>
            simp [openPkg, hm, hc, hv, initPackage, hval, Bind.bind, Except.bind] at h
          | none =>
            simp only [openPkg, hm, hc, hv, initPackage, hval, Bind.bind,
              Except.bind, Except.ok.injEq] at h
            rw [← h]
            exact hasContents_of_validate_none files rfs hval
  · intro h2
    rw [writePkg] at h2 ⊢
    by_cases h1 : normalizePath path = mimetypePath
    · rw [h1, if_pos rfl] at h2 ⊢
      exact hasContents_of_validate_none _ _ h2
    · rw [if_neg h1] at h2 ⊢
      by_cases hc2 : normalizePath path = containerPath
      · rw [hc2, if_pos rfl] at h2 ⊢
        cases hp : parseContainer L (some data) with
        | error e => rw [hp] at h2; simp at h2
        | ok rfs =>
          rw [hp] at h2
          exact hasContents_of_validate_none _ _ h2
      · rw [if_neg hc2] at h2 ⊢
        by_cases hv2 : normalizePath path = versionPath
        · rw [hv2, if_pos rfl] at h2 ⊢
          cases hp : parseVersion L (some data) with
          | error e => rw [hp] at h2; simp at h2
          | ok vi =>
            rw [hp] at h2
            exact hasContents_of_validate_none _ _ h2
        · rw [if_neg hv2] at h2 ⊢
          exact hasContents_of_validate_none _ _ h2
  · intro h2
    rw [deletePkg] at h2 ⊢
    by_cases h1 : (alLookup (normalizePath path) pkg.files).isNone = true
    · rw [if_pos h1] at h2
      simp at h2
    · rw [if_neg h1] at h2 ⊢
      by_cases hmand : normalizePath path = mimetypePath ∨ normalizePath path = containerPath ∨
          normalizePath path = versionPath
      · rw [if_pos hmand] at h2
        simp at h2
      · rw [if_neg hmand] at h2 ⊢
        exact hasContents_of_validate_none _ _ h2
  · intro h2
    exact hasContents_of_validate_none _ _ (saveToZip_success L pkg h2)
  · intro hng rfs hc vi hv
    cases hm : alLookup mimetypePath files with
    | none => simp [openPkg, hm, resultIsStructureError, PyErr.isStructure]
    | some mt =>
      rcases validate_some_of_noContents files rfs hng with ⟨e, hval, hstr⟩
      simp [openPkg, hm, hc, hv, initPackage, hval, Bind.bind, Except.bind,
        resultIsStructureError, hstr]
  · intro b1 b2 b3
    have hm : alLookup mimetypePath
        [(mimetypePath, b1), (containerPath, b2), (versionPath, b3)] = some b1 := rfl
    have hlc : alLookup containerPath
        [(mimetypePath, b1), (containerPath, b2), (versionPath, b3)] = some b2 := rfl
    have hlv : alLookup versionPath
        [(mimetypePath, b1), (containerPath, b2), (versionPath, b3)] = some b3 := rfl
    cases hc : parseContainer L (some b2) with
    | error e =>
      simp [openPkg, hm, hlc, hc, Bind.bind, Except.bind, exceptIsOk]
    | ok rfs =>
      cases hv : parseVersion L (some b3) with
      | error e =>
        simp [openPkg, hm, hlc, hlv, hc, hv, Bind.bind, Except.bind, exceptIsOk]
      | ok vi =>
        have hng : hasContents
            [(mimetypePath, b1), (containerPath, b2), (versionPath, b3)] = false := rfl
        rcases validate_some_of_noContents
          [(mimetypePath, b1), (containerPath, b2), (versionPath, b3)] rfs hng with ⟨e, hval, _⟩
        simp [openPkg, hm, hlc, hlv, hc, hv, initPackage, hval, Bind.bind, Except.bind,
          exceptIsOk]

/-- C10 witness: the opened example package has a Contents part; an
archive with only the three mandatory parts cannot be opened and fails
with HwpxStructureError. -/
theorem c10_witness :
    hasContents exPkg.files = true
    ∧ exceptIsOk (openPkg exL [(mimetypePath, bytesOf "application/hwp+zip"),
        (containerPath, exContainerBytes), (versionPath, exVersionBytes)]) = false
    ∧ resultIsStructureError (openPkg exL [(mimetypePath, bytesOf "application/hwp+zip"),
        (containerPath, exContainerBytes), (versionPath, exVersionBytes)]) = true :=
  ⟨(c10_contents_part_required exL exFiles exPkg "x" []).1 exPkg rfl,
    (c10_contents_part_required exL
      [(mimetypePath, bytesOf "application/hwp+zip"),
        (containerPath, exContainerBytes), (versionPath, exVersionBytes)]
      exPkg "x" []).2.2.2.2.2 (bytesOf "application/hwp+zip") exContainerBytes exVersionBytes,
    (c10_contents_part_required exL
      [(mimetypePath, bytesOf "application/hwp+zip"),
        (containerPath, exContainerBytes), (versionPath, exVersionBytes)]
      exPkg "x" []).2.2.2.2.1 rfl
      [⟨"Contents/content.hpf", some "application/hwpml-package+xml"⟩] rfl
      exVersionInfo rfl⟩

/-- The mimetype bytes of the package are found under the mimetype
path after the re-injection steps of _save_to_zip. -/
theorem saveP2_lookup_mimetype (L : Lxml) (pkg : HwpxPackage) :
    alLookup mimetypePath (saveP2 L pkg).files = some pkg.mimetype := by
  have h1 : (mimetypePath : String) ≠ versionPath := by decide
  unfold saveP2
  split
  · show alLookup mimetypePath
      (alInsert versionPath (VersionInfo.toBytes L (saveP1 pkg).version) (saveP1 pkg).files) =
        some pkg.mimetype
    rw [alLookup_alInsert_ne versionPath mimetypePath _ h1]
    exact alLookup_alInsert_self mimetypePath pkg.mimetype pkg.files
  · exact alLookup_alInsert_self mimetypePath pkg.mimetype pkg.files

/-- A successful _save_to_zip run streams exactly the entries of
zipEntriesOf for the final state. -/
theorem saveToZip_entries (L : Lxml) (pkg : HwpxPackage)
    (h : (saveToZip L pkg).2.1 = none) :
    (saveToZip L pkg).2.2 = zipEntriesOf (saveP2 L pkg) := by
  unfold saveToZip at h ⊢
  split at h
  · simp at h
  · rfl

/-- The Bool comparison used by the sorted write loop is transitive. -/
theorem strLeB_trans (a b c : String) :
    decide (a ≤ b) = true → decide (b ≤ c) = true → decide (a ≤ c) = true := by
  intro h1 h2
  simp only [decide_eq_true_eq] at h1 h2 ⊢
  exact le_trans h1 h2

/-- The Bool comparison used by the sorted write loop is total. -/
theorem strLeB_total (a b : String) :
    (decide (a ≤ b) || decide (b ≤ a)) = true := by
  rcases le_total a b with h | h <;> simp [h]

/-- C2: on every successful save the first ZIP entry is the stored,
uncompressed mimetype entry holding the current in-memory mimetype
bytes, which are also re-injected into the part mapping; every further
entry is deflate-compressed, is not the mimetype entry, and carries
the mapping bytes of its path; the further entry names are sorted and
are exactly the non-mimetype paths of the mapping; and save with no
updates delegates to _save_to_zip. -/
theorem c2_save_zip_layout (L : Lxml) (pkg : HwpxPackage)
    (h : (saveToZip L pkg).2.1 = none) :
    (saveToZip L pkg).2.2.head? = some (ZipEntry.mk mimetypePath pkg.mimetype .stored)
    ∧ alLookup mimetypePath (saveToZip L pkg).1.files = some pkg.mimetype
    ∧ (∀ e ∈ (saveToZip L pkg).2.2.tail, e.compression = .deflated ∧ e.name ≠ mimetypePath
        ∧ alLookup e.name (saveToZip L pkg).1.files = some e.data)
    ∧ List.Pairwise (fun a b : String => a ≤ b) ((saveToZip L pkg).2.2.tail.map ZipEntry.name)
    ∧ ((saveToZip L pkg).2.2.tail.map ZipEntry.name).Perm
        ((alKeys (saveToZip L pkg).1.files).filter (fun n => n ≠ mimetypePath))
    ∧ savePkg L pkg [] = saveToZip L pkg := by
  have hfst := saveToZip_fst L pkg
  have hent := saveToZip_entries L pkg h
  have hmt := saveP2_lookup_mimetype L pkg
  refine ⟨?_, ?_, ?_, ?_, ?_, rfl⟩
  · rw [hent]
    unfold zipEntriesOf
    rw [hmt]
    rfl
  · rw [hfst]
    exact hmt
  · intro e he
    rw [hent] at he
    unfold zipEntriesOf at he
    simp only [List.tail_cons, List.mem_map, List.mem_filter] at he
    rcases he with ⟨n, ⟨hn1, hn2⟩, rfl⟩
    refine ⟨rfl, by simpa using hn2, ?_⟩
    have hmem : n ∈ alKeys (saveP2 L pkg).files := by
      have hn1b : n ∈ (alKeys (saveP2 L pkg).files).mergeSort (fun a b => decide (a ≤ b)) := by
        simpa [pySortedKeys] using hn1
      exact (List.mergeSort_perm (alKeys (saveP2 L pkg).files)
        (fun a b => decide (a ≤ b))).mem_iff.mp hn1b
    rcases alLookup_isSome_of_mem_keys n (saveP2 L pkg).files hmem with ⟨v, hv⟩
    rw [hfst]
    simp [hv]
  · rw [hent]
    unfold zipEntriesOf
    simp only [List.tail_cons, List.map_map]
    have hmapped : (((pySortedKeys (alKeys (saveP2 L pkg).files)).filter
        (fun n => n ≠ mimetypePath)).map
          (ZipEntry.name ∘ fun n =>
            ZipEntry.mk n ((alLookup n (saveP2 L pkg).files).getD []) .deflated)) =
        ((pySortedKeys (alKeys (saveP2 L pkg).files)).filter (fun n => n ≠ mimetypePath)) := by
      exact List.map_id'' (fun x => rfl) _
    rw [hmapped]
    have hsorted : ((pySortedKeys (alKeys (saveP2 L pkg).files)).filter
        (fun n => n ≠ mimetypePath)).Pairwise (fun a b => decide (a ≤ b) = true) := by
      apply List.Pairwise.filter
      exact List.sorted_mergeSort strLeB_trans strLeB_total (alKeys (saveP2 L pkg).files)
    exact hsorted.imp (fun hab => by simpa using hab)
  · rw [hent, hfst]
    unfold zipEntriesOf
    simp only [List.tail_cons, List.map_map]
    have hmapped : (((pySortedKeys (alKeys (saveP2 L pkg).files)).filter
        (fun n => n ≠ mimetypePath)).map
          (ZipEntry.name ∘ fun n =>
            ZipEntry.mk n ((alLookup n (saveP2 L pkg).files).getD []) .deflated)) =
        ((pySortedKeys (alKeys (saveP2 L pkg).files)).filter (fun n => n ≠ mimetypePath)) := by
      exact List.map_id'' (fun x => rfl) _
    rw [hmapped]
    exact (List.mergeSort_perm (alKeys (saveP2 L pkg).files)
      (fun a b => decide (a ≤ b))).filter (fun n => decide (n ≠ mimetypePath))

/-- C2 witness: the concrete example package saves with the stored
mimetype entry first and the mimetype bytes re-injected. -/
theorem c2_witness :
    (saveToZip exL exPkg).2.2.head? =
      some (ZipEntry.mk mimetypePath (bytesOf "application/hwp+zip") .stored)
    ∧ alLookup mimetypePath (saveToZip exL exPkg).1.files =
        some (bytesOf "application/hwp+zip")
    ∧ List.Pairwise (fun a b : String => a ≤ b)
        ((saveToZip exL exPkg).2.2.tail.map ZipEntry.name) :=
  ⟨(c2_save_zip_layout exL exPkg (by decide)).1,
    (c2_save_zip_layout exL exPkg (by decide)).2.1,
    (c2_save_zip_layout exL exPkg (by decide)).2.2.2.1⟩

/-- Guarded replacement folds are the identity when no pattern of the
pair list occurs in the accumulator. -/
theorem normalize_foldl_id (d : ByteStr) :
    ∀ ps : List (ByteStr × ByteStr), (∀ p ∈ ps, hasInfix p.1 d = false) →
      ps.foldl (fun d2 p => if hasInfix p.1 d2 then replaceAll p.1 p.2 d2 else d2) d = d := by
  intro ps
  induction ps with
  | nil => intro _; rfl
  | cons p t ih =>
    intro h
    have h1 : hasInfix p.1 d = false := h p (List.mem_cons_self p t)
    simp only [List.foldl_cons, h1, Bool.false_eq_true, if_false]
    exact ih (fun q hq => h q (List.mem_cons_of_mem p hq))

/-- C8 (amended): the byte-level namespace normalization is the
identity on every byte string containing none of the seven legacy
namespace URI byte sequences, so parse after normalization never
changes documents already in the canonical 2011 namespace family; and
a second application changes nothing whenever the first application
yielded a string free of the legacy sequences.  (Unconditional
idempotence is false: see the counterexample, where a replacement
splices a legacy URI together across a replacement boundary.) -/
theorem c8_normalize_identity (L : Lxml) (d : ByteStr) :
    ((∀ p ∈ hwpml2016to2011, hasInfix p.1 d = false) → normalizeHwpmlNamespaces d = d)
    ∧ ((∀ p ∈ hwpml2016to2011, hasInfix p.1 d = false) → parseXml L d = L.parse d)
    ∧ ((∀ p ∈ hwpml2016to2011, hasInfix p.1 (normalizeHwpmlNamespaces d) = false) →
        normalizeHwpmlNamespaces (normalizeHwpmlNamespaces d) = normalizeHwpmlNamespaces d) := by
  refine ⟨?_, ?_, ?_⟩
  · intro h
    exact normalize_foldl_id d hwpml2016to2011 h
  · intro h
    unfold parseXml
    rw [show normalizeHwpmlNamespaces d = d from normalize_foldl_id d hwpml2016to2011 h]
  · intro h
    exact normalize_foldl_id _ hwpml2016to2011 h

/-- C8 counterexample: applying the normalization twice differs from
applying it once on a byte string where the paragraph replacement
creates a fresh occurrence of the legacy paragraph URI spanning the
replacement boundary. -/
theorem c8_counterexample :
    normalizeHwpmlNamespaces (normalizeHwpmlNamespaces exC8) ≠ normalizeHwpmlNamespaces exC8 := by
  decide

/-- C8 witness: a canonical document is untouched and parses
identically with and without normalization. -/
theorem c8_witness :
    normalizeHwpmlNamespaces (bytesOf "<doc xmlns=a/>") = bytesOf "<doc xmlns=a/>"
    ∧ parseXml exL (bytesOf "<doc xmlns=a/>") = exL.parse (bytesOf "<doc xmlns=a/>") :=
  ⟨(c8_normalize_identity exL (bytesOf "<doc xmlns=a/>")).1 (by decide),
    (c8_normalize_identity exL (bytesOf "<doc xmlns=a/>")).2.1 (by decide)⟩

/-- A successful startsWith means the pattern is the prefix of that
length. -/
theorem listStartsWith_take (pat : List Nat) :
    ∀ l : List Nat, listStartsWith pat l = true → l.take pat.length = pat := by
  induction pat with
  | nil => intro l _; rfl
  | cons p ps ih =>
    intro l h
    cases l with
    | nil => simp [listStartsWith] at h
    | cons x xs =>
      simp only [listStartsWith, Bool.and_eq_true, decide_eq_true_eq] at h
      simp only [List.length_cons, List.take_succ_cons]
      rw [ih xs h.2, h.1]

/-- Splitting a take at an intermediate index. -/
theorem take_add_split (m n : Nat) :
    ∀ l : List Nat, l.take (m + n) = l.take m ++ (l.drop m).take n := by
  induction m with
  | zero => intro l; simp
  | succ k ih =>
    intro l
    cases l with
    | nil => simp
    | cons x xs =>
      simp only [Nat.succ_add, List.take_succ_cons, List.drop_succ_cons, List.cons_append]
      rw [ih xs]

/-- Any prefix obtained by take passes startsWith. -/
theorem listStartsWith_take_self :
    ∀ (l : List Nat) (n : Nat), listStartsWith (l.take n) l = true := by
  intro l
  induction l with
  | nil => intro n; cases n <;> rfl
  | cons x xs ih =>
    intro n
    cases n with
    | zero => rfl
    | succ k => simp [listStartsWith, ih k]

/-- startsWith is preserved by take when the take keeps at least the
pattern length. -/
theorem listStartsWith_of_take (pat : List Nat) :
    ∀ (l : List Nat) (n : Nat), listStartsWith pat l = true → pat.length ≤ n →
      listStartsWith pat (l.take n) = true := by
  induction pat with
  | nil => intro l n _ _; rfl
  | cons p ps ih =>
    intro l n h hn
    cases l with
    | nil => simp [listStartsWith] at h
    | cons x xs =>
      simp only [listStartsWith, Bool.and_eq_true, decide_eq_true_eq] at h
      cases n with
      | zero => simp [List.length_cons] at hn
      | succ k =>
        simp only [List.take_succ_cons, listStartsWith, Bool.and_eq_true, decide_eq_true_eq]
        exact ⟨h.1, ih xs k h.2 (Nat.le_of_succ_le_succ hn)⟩

/-- The index returned by findSubIdx is a match and is the first
match. -/
theorem findSubIdx_spec (pat : List Nat) :
    ∀ (l : List Nat) (i : Nat), findSubIdx pat l = some i →
      listStartsWith pat (l.drop i) = true
      ∧ ∀ j, j < i → listStartsWith pat (l.drop j) = false := by
  intro l
  induction l with
  | nil =>
    intro i h
    unfold findSubIdx at h
    by_cases hc : listStartsWith pat ([] : List Nat) = true
    · rw [if_pos hc] at h
      cases h
      exact ⟨hc, fun j hj => absurd hj (Nat.not_lt_zero j)⟩
    · rw [if_neg hc] at h
      cases h
  | cons x xs ih =>
    intro i h
    unfold findSubIdx at h
    by_cases hc : listStartsWith pat (x :: xs) = true
    · rw [if_pos hc] at h
      cases h
      exact ⟨hc, fun j hj => absurd hj (Nat.not_lt_zero j)⟩
    · rw [if_neg hc] at h
      rcases Option.map_eq_some'.mp h with ⟨i0, hi0, rfl⟩
      rcases ih i0 hi0 with ⟨h1, h2⟩
      refine ⟨by simpa using h1, ?_⟩
      intro j hj
      cases j with
      | zero =>
        simp only [List.drop_zero]
        revert hc
        cases listStartsWith pat (x :: xs) <;> simp
      | succ k =>
        simp only [List.drop_succ_cons]
        exact h2 k (Nat.lt_of_succ_lt_succ hj)

/-- A byte string passing the xml-declaration startsWith test begins
with the five declaration bytes. -/
theorem startsWith_xml_shape (s : ByteStr)
    (h : listStartsWith (bytesOf "<?xml") s = true) :
    ∃ t, s = 60 :: 63 :: 120 :: 109 :: 108 :: t := by
  have hb : bytesOf "<?xml" = [60, 63, 120, 109, 108] := rfl
  rw [hb] at h
  cases s with
  | nil => simp [listStartsWith] at h
  | cons a1 s1 =>
    cases s1 with
    | nil => simp [listStartsWith] at h
    | cons a2 s2 =>
      cases s2 with
      | nil => simp [listStartsWith] at h
      | cons a3 s3 =>
        cases s3 with
        | nil => simp [listStartsWith] at h
        | cons a4 s4 =>
          cases s4 with
          | nil => simp [listStartsWith] at h
          | cons a5 s5 =>
            simp only [listStartsWith, Bool.and_eq_true, decide_eq_true_eq] at h
            rcases h with ⟨h1, h2, h3, h4, h5, _⟩
            exact ⟨s5, by rw [← h1, ← h2, ← h3, ← h4, ← h5]⟩

/-- C9 (amended): extract_xml_declaration strips leading ASCII
whitespace first; it returns none when the stripped input does not
start with the declaration opener or contains no closer, and otherwise
returns the prefix of the stripped input, not of the raw input, that
ends at the first closer: the span starts with the opener, ends with
the closer, and no closer occurs before the returned one. -/
theorem c9_extract_declaration_span (data : ByteStr) :
    (listStartsWith (bytesOf "<?xml") (pyLstrip data) = false →
      extractXmlDeclaration data = none)
    ∧ (findSubIdx (bytesOf "?>") (pyLstrip data) = none →
      extractXmlDeclaration data = none)
    ∧ (∀ i, listStartsWith (bytesOf "<?xml") (pyLstrip data) = true →
        findSubIdx (bytesOf "?>") (pyLstrip data) = some i →
        extractXmlDeclaration data = some ((pyLstrip data).take (i + 2))
        ∧ listStartsWith ((pyLstrip data).take (i + 2)) (pyLstrip data) = true
        ∧ listStartsWith (bytesOf "<?xml") ((pyLstrip data).take (i + 2)) = true
        ∧ (pyLstrip data).take (i + 2) = (pyLstrip data).take i ++ bytesOf "?>"
        ∧ (∀ j, j < i → listStartsWith (bytesOf "?>") ((pyLstrip data).drop j) = false)) := by
  refine ⟨?_, ?_, ?_⟩
  · intro h
    simp [extractXmlDeclaration, h]
  · intro h
    unfold extractXmlDeclaration
    by_cases hs : listStartsWith (bytesOf "<?xml") (pyLstrip data) = true
    · simp [hs, h]
    · simp [hs]
  · intro i hs hf
    rcases findSubIdx_spec (bytesOf "?>") (pyLstrip data) i hf with ⟨hmatch, hmin⟩
    have hb2 : bytesOf "?>" = [63, 62] := rfl
    have hge : 3 ≤ i := by
      rcases startsWith_xml_shape (pyLstrip data) hs with ⟨t, ht⟩
      by_contra hlt
      push_neg at hlt
      rw [ht, hb2] at hmatch
      interval_cases i <;> simp [listStartsWith] at hmatch
    refine ⟨by simp [extractXmlDeclaration, hs, hf], listStartsWith_take_self _ _, ?_, ?_, hmin⟩
    · exact listStartsWith_of_take _ _ _ hs (by
        have : (bytesOf "<?xml").length = 5 := rfl
        omega)
    · rw [take_add_split i 2]
      have h2 : ((pyLstrip data).drop i).take (bytesOf "?>").length = bytesOf "?>" :=
        listStartsWith_take _ _ hmatch
      rw [show (bytesOf "?>").length = 2 from rfl] at h2
      rw [h2]

/-- C9 counterexample: on an input with a leading blank the
declaration is not at the start of the input, so the claim demands
none, yet the function returns the span of the whitespace-stripped
input, which is not a prefix of the input. -/
theorem c9_counterexample :
    extractXmlDeclaration exC9 = some (bytesOf "<?xml version=1.0?>")
    ∧ listStartsWith (bytesOf "<?xml") exC9 = false
    ∧ listStartsWith (bytesOf "<?xml version=1.0?>") exC9 = false := by
  refine ⟨by decide, by decide, by decide⟩

/-- C9 witness: a concrete declaration with trailing content is
extracted as the prefix of the stripped input ending at the first
closer. -/
theorem c9_witness :
    extractXmlDeclaration (bytesOf "<?xml a?><doc/>") =
      some ((pyLstrip (bytesOf "<?xml a?><doc/>")).take (7 + 2))
    ∧ listStartsWith ((pyLstrip (bytesOf "<?xml a?><doc/>")).take (7 + 2))
        (pyLstrip (bytesOf "<?xml a?><doc/>")) = true
    ∧ listStartsWith (bytesOf "<?xml")
        ((pyLstrip (bytesOf "<?xml a?><doc/>")).take (7 + 2)) = true
    ∧ (pyLstrip (bytesOf "<?xml a?><doc/>")).take (7 + 2) =
        (pyLstrip (bytesOf "<?xml a?><doc/>")).take 7 ++ bytesOf "?>"
    ∧ (∀ j, j < 7 → listStartsWith (bytesOf "?>")
        ((pyLstrip (bytesOf "<?xml a?><doc/>")).drop j) = false) :=
  (c9_extract_declaration_span (bytesOf "<?xml a?><doc/>")).2.2 7 (by decide) (by decide)

/-- Folding one more digit onto a digit list. -/
theorem decVal_append (ds : List Nat) (d : Nat) :
    decVal (ds ++ [d]) = decVal ds * 10 + d := by
  unfold decVal
  rw [List.foldl_append]
  rfl

/-- The digit rendering round-trips through the numeric value. -/
theorem decVal_decDigitsAux :
    ∀ fuel n, n ≤ fuel → decVal (decDigitsAux fuel n) = n := by
  intro fuel
  induction fuel with
  | zero =>
    intro n hn
    have h0 : n = 0 := Nat.le_zero.mp hn
    subst h0
    rfl
  | succ k ih =>
    intro n hn
    unfold decDigitsAux
    by_cases h10 : n < 10
    · rw [if_pos h10]
      simp [decVal]
    · rw [if_neg h10]
      have hdiv : n / 10 ≤ k := by
        have h1 : n / 10 < n := Nat.div_lt_self (by omega) (by omega)
        omega
      rw [decVal_append, ih (n / 10) hdiv]
      have := Nat.div_add_mod n 10
      omega

/-- Every rendered digit is below ten. -/
theorem decDigitsAux_lt10 :
    ∀ fuel n, n ≤ fuel → ∀ d ∈ decDigitsAux fuel n, d < 10 := by
  intro fuel
  induction fuel with
  | zero =>
    intro n hn d hd
    have h0 : n = 0 := Nat.le_zero.mp hn
    subst h0
    simp [decDigitsAux] at hd
    omega
  | succ k ih =>
    intro n hn d hd
    unfold decDigitsAux at hd
    by_cases h10 : n < 10
    · rw [if_pos h10] at hd
      simp at hd
      omega
    · rw [if_neg h10] at hd
      rcases List.mem_append.mp hd with h1 | h1
      · have hdiv : n / 10 ≤ k := by
          have := Nat.div_lt_self (show 0 < n by omega) (show 1 < 10 by omega)
          omega
        exact ih (n / 10) hdiv d h1
      · simp at h1
        subst h1
        exact Nat.mod_lt n (by omega)

/-- Single-digit numbers render as a singleton. -/
theorem decDigitsAux_single (fuel n : Nat) (h : n < 10) :
    decDigitsAux fuel n = [n] := by
  cases fuel with
  | zero => rfl
  | succ k => simp [decDigitsAux, h]

/-- The rendered digits are never empty. -/
theorem decDigitsAux_ne_nil (fuel n : Nat) : decDigitsAux fuel n ≠ [] := by
  cases fuel with
  | zero => simp [decDigitsAux]
  | succ k =>
    unfold decDigitsAux
    by_cases h10 : n < 10
    · simp [h10]
    · rw [if_neg h10]
      simp

/-- For numbers of at least two digits the leading digit is
non-zero. -/
theorem decDigitsAux_head_pos :
    ∀ fuel n, n ≤ fuel → 10 ≤ n →
      ∃ d t, decDigitsAux fuel n = d :: t ∧ d ≠ 0 := by
  intro fuel
  induction fuel with
  | zero =>
    intro n hn h10
    omega
  | succ k ih =>
    intro n hn h10
    unfold decDigitsAux
    rw [if_neg (by omega)]
    by_cases hq : 10 ≤ n / 10
    · have hdiv : n / 10 ≤ k := by
        have := Nat.div_lt_self (show 0 < n by omega) (show 1 < 10 by omega)
        omega
      rcases ih (n / 10) hdiv hq with ⟨d, t, heq, hd⟩
      exact ⟨d, t ++ [n % 10], by rw [heq]; rfl, hd⟩
    · have hq2 : n / 10 < 10 := by omega
      rw [decDigitsAux_single k (n / 10) hq2]
      refine ⟨n / 10, [n % 10], rfl, ?_⟩
      have : 1 ≤ n / 10 := Nat.le_div_iff_mul_le (by omega) |>.mpr (by omega)
      omega

/-- Digit characters decode back to their digit. -/
theorem digitChar_toNat (d : Nat) (h : d < 10) : (digitChar d).toNat = 48 + d := by
  interval_cases d <;> decide

/-- The digit-character map is injective on digits. -/
theorem digitChar_inj (d e : Nat) (hd : d < 10) (he : e < 10)
    (h : digitChar d = digitChar e) : d = e := by
  have := congrArg Char.toNat h
  rw [digitChar_toNat d hd, digitChar_toNat e he] at this
  omega

/-- Mapping digit lists through digitChar is injective. -/
theorem map_digitChar_inj :
    ∀ ds es : List Nat, (∀ d ∈ ds, d < 10) → (∀ e ∈ es, e < 10) →
      ds.map digitChar = es.map digitChar → ds = es := by
  intro ds
  induction ds with
  | nil =>
    intro es _ _ h
    cases es with
    | nil => rfl
    | cons e t => simp at h
  | cons d t ih =>
    intro es hds hes h
    cases es with
    | nil => simp at h
    | cons e u =>
      simp only [List.map_cons, List.cons.injEq] at h
      have h1 : d = e := digitChar_inj d e (hds d (by simp)) (hes e (by simp)) h.1
      have h2 : t = u := ih u (fun x hx => hds x (by simp [hx]))
        (fun x hx => hes x (by simp [hx])) h.2
      rw [h1, h2]

/-- Zero padding to width four is injective on canonical digit
strings when the first is at most as long as the second: non-empty,
and a leading zero only as a single digit. -/
theorem padZeros4_inj_le (a b : List Char) (hab : a.length ≤ b.length)
    (ha : a ≠ []) (hb0 : 2 ≤ b.length → b.head? ≠ some (Char.ofNat 48))
    (h : padZeros4 a = padZeros4 b) : a = b := by
  have ha1 : 1 ≤ a.length := by
    cases a with
    | nil => exact absurd rfl ha
    | cons x t => simp
  have hlen := congrArg List.length h
  simp only [padZeros4, List.length_append, List.length_replicate] at hlen
  by_cases h4b : b.length ≤ 4
  · have key : List.replicate (b.length - a.length) (Char.ofNat 48) ++ a = b := by
      have e1 : List.replicate (4 - a.length) (Char.ofNat 48) =
          List.replicate (4 - b.length) (Char.ofNat 48) ++
            List.replicate (b.length - a.length) (Char.ofNat 48) := by
        rw [← List.replicate_add]
        congr 1
        omega
      unfold padZeros4 at h
      rw [e1, List.append_assoc] at h
      exact List.append_cancel_left h
    cases hk : b.length - a.length with
    | zero =>
      rw [hk] at key
      simpa using key
    | succ m =>
      exfalso
      rw [hk] at key
      have hbhead : b.head? = some (Char.ofNat 48) := by
        rw [← key]
        rfl
      have hblen : 2 ≤ b.length := by omega
      exact hb0 hblen hbhead
  · by_cases h4a2 : a.length ≤ 4
    · exfalso
      omega
    · unfold padZeros4 at h
      rw [show 4 - a.length = 0 by omega, show 4 - b.length = 0 by omega] at h
      simpa using h

/-- The canonical-digit-string facts needed about a rendered number:
non-empty, and a leading zero character only for single-digit
renderings. -/
theorem decDigits_canonical (n : Nat) :
    (decDigits n).map digitChar ≠ []
    ∧ (2 ≤ ((decDigits n).map digitChar).length →
        ((decDigits n).map digitChar).head? ≠ some (Char.ofNat 48)) := by
  constructor
  · intro h
    exact decDigitsAux_ne_nil n n (List.map_eq_nil_iff.mp h)
  · intro hlen
    by_cases h10 : n < 10
    · rw [show decDigits n = decDigitsAux n n from rfl,
        decDigitsAux_single n n h10] at hlen
      simp at hlen
    · rcases decDigitsAux_head_pos n n (le_refl n) (by omega) with ⟨d, t, heq, hd⟩
      have hdl : d < 10 := by
        have := decDigitsAux_lt10 n n (le_refl n)
        exact this d (by rw [heq]; simp)
      rw [show decDigits n = decDigitsAux n n from rfl, heq]
      simp only [List.map_cons, List.head?_cons, ne_eq, Option.some.injEq]
      intro hzero
      have h48 : Char.ofNat 48 = digitChar 0 := rfl
      rw [h48] at hzero
      exact hd (digitChar_inj d 0 hdl (by omega) hzero)

/-- The BIN id formatting is injective. -/
theorem binFormat_inj (m n : Nat) (h : binFormat m = binFormat n) : m = n := by
  have hdata := congrArg String.data h
  simp only [binFormat] at hdata
  have hpad : padZeros4 ((decDigits m).map digitChar) =
      padZeros4 ((decDigits n).map digitChar) := by
    have : ∀ x y : List Char,
        (Char.ofNat 66 :: Char.ofNat 73 :: Char.ofNat 78 :: x : List Char) =
          (Char.ofNat 66 :: Char.ofNat 73 :: Char.ofNat 78 :: y : List Char) → x = y := by
      intro x y hxy
      simpa using hxy
    exact this _ _ hdata
  rcases decDigits_canonical m with ⟨ham, ham0⟩
  rcases decDigits_canonical n with ⟨han, han0⟩
  have hmapeq : (decDigits m).map digitChar = (decDigits n).map digitChar := by
    rcases Nat.le_total ((decDigits m).map digitChar).length
        ((decDigits n).map digitChar).length with hle | hle
    · exact padZeros4_inj_le _ _ hle ham han0 hpad
    · exact (padZeros4_inj_le _ _ hle han ham0 hpad.symm).symm
  have hdig : decDigits m = decDigits n :=
    map_digitChar_inj _ _ (decDigitsAux_lt10 m m (le_refl m))
      (decDigitsAux_lt10 n n (le_refl n)) hmapeq
  have h1 := decVal_decDigitsAux m m (le_refl m)
  have h2 := decVal_decDigitsAux n n (le_refl n)
  rw [show decDigits m = decDigitsAux m m from rfl] at hdig
  rw [show decDigits n = decDigitsAux n n from rfl] at hdig
  rw [← h1, ← h2, hdig]

/-- Pigeonhole for the id search: among the first length-plus-one
candidates starting anywhere, one is not among a duplicate-free id
list. -/
theorem exists_unused_id (eids : List String) (hnd : eids.Nodup) (start : Nat) :
    ∃ k, k ≤ eids.length ∧ binFormat (start + k) ∉ eids := by
  by_contra hcon
  push_neg at hcon
  have hsub : ∀ x ∈ (List.range (eids.length + 1)).map (fun k => binFormat (start + k)),
      x ∈ eids := by
    intro x hx
    rcases List.mem_map.mp hx with ⟨k, hk, rfl⟩
    exact hcon k (Nat.lt_succ_iff.mp (List.mem_range.mp hk))
  have hinj : Function.Injective (fun k => binFormat (start + k)) := by
    intro k1 k2 hk
    have := binFormat_inj (start + k1) (start + k2) hk
    omega
  have hnodup : ((List.range (eids.length + 1)).map (fun k => binFormat (start + k))).Nodup :=
    List.Nodup.map hinj (List.nodup_range _)
  have hc1 : ((List.range (eids.length + 1)).map
      (fun k => binFormat (start + k))).toFinset.card = eids.length + 1 := by
    rw [List.toFinset_card_of_nodup hnodup]
    simp
  have hc2 : ((List.range (eids.length + 1)).map
      (fun k => binFormat (start + k))).toFinset ⊆ eids.toFinset := by
    intro x hx
    exact List.mem_toFinset.mpr (hsub x (List.mem_toFinset.mp hx))
  have hc3 : eids.toFinset.card = eids.length := List.toFinset_card_of_nodup hnd
  have := Finset.card_le_card hc2
  omega

/-- The search loop returns the first formatted id, counting up from
the start value, that is not among the existing ids, provided a free
one exists within the fuel. -/
theorem findFreeId_spec (eids : List String) :
    ∀ fuel n, (∃ k, k < fuel ∧ binFormat (n + k) ∉ eids) →
      ∃ m, findFreeId eids n fuel = binFormat m ∧ n ≤ m ∧ binFormat m ∉ eids
        ∧ ∀ j, n ≤ j → j < m → binFormat j ∈ eids := by
  intro fuel
  induction fuel with
  | zero =>
    intro n h
    rcases h with ⟨k, hk, _⟩
    exact absurd hk (Nat.not_lt_zero k)
  | succ f ih =>
    intro n h
    rcases h with ⟨k, hk, hfree⟩
    by_cases hmem : binFormat n ∈ eids
    · have hk0 : k ≠ 0 := by
        rintro rfl
        exact hfree (by simpa using hmem)
      rcases Nat.exists_eq_succ_of_ne_zero hk0 with ⟨k2, rfl⟩
      have hfree2 : binFormat (n + 1 + k2) ∉ eids := by
        have harith : n + (k2 + 1) = n + 1 + k2 := by omega
        rw [harith] at hfree
        exact hfree
      rcases ih (n + 1) ⟨k2, Nat.lt_of_succ_lt_succ hk, hfree2⟩ with
        ⟨m, heq, hge, hfreem, hmin⟩
      refine ⟨m, ?_, by omega, hfreem, ?_⟩
      · unfold findFreeId
        rw [if_pos hmem]
        exact heq
      · intro j hj1 hj2
        rcases Nat.eq_or_lt_of_le hj1 with rfl | hlt
        · exact hmem
        · exact hmin j hlt hj2
    · refine ⟨n, ?_, le_refl n, hmem, ?_⟩
      · unfold findFreeId
        rw [if_neg hmem]
      · intro j hj1 hj2
        omega

/-- C4 (amended): when no explicit item id is passed, add_image
allocates the id BIN followed by the zero-padded decimal of the first
suffix m, counting up from one more than the number of distinct
registered header bin-item ids, whose formatted id is not among those
ids; the allocated id is unique among the registered header bin-item
ids.  (The claim as stated fails: the search does not start at one, so
the allocated suffix is not the lowest unused one, and uniqueness is
checked against the header registry rather than the manifest; see the
counterexample.) -/
theorem c4_image_id_allocation (doc : HwpxDocModel) :
    ∃ m, addImageAutoId doc = binFormat m
      ∧ (∀ h, doc.headers.head? = some h →
          ((h.binItems.map (fun bi => attrGetD bi "id" "")).dedup.length + 1 ≤ m
          ∧ binFormat m ∉ (h.binItems.map (fun bi => attrGetD bi "id" "")).dedup
          ∧ ∀ j, (h.binItems.map (fun bi => attrGetD bi "id" "")).dedup.length + 1 ≤ j →
              j < m → binFormat j ∈ (h.binItems.map (fun bi => attrGetD bi "id" "")).dedup))
      ∧ (doc.headers.head? = none → m = 1) := by
  cases hh : doc.headers.head? with
  | none =>
    refine ⟨1, ?_, ?_, fun _ => rfl⟩
    · unfold addImageAutoId
      rw [hh]
      rfl
    · intro h2 hcon
      cases hcon
  | some h =>
    rcases exists_unused_id ((h.binItems.map (fun bi => attrGetD bi "id" "")).dedup)
      (List.nodup_dedup _)
      ((h.binItems.map (fun bi => attrGetD bi "id" "")).dedup.length + 1) with ⟨k, hk, hfree⟩
    rcases findFreeId_spec ((h.binItems.map (fun bi => attrGetD bi "id" "")).dedup)
      ((h.binItems.map (fun bi => attrGetD bi "id" "")).dedup.length + 1)
      ((h.binItems.map (fun bi => attrGetD bi "id" "")).dedup.length + 1)
      ⟨k, by omega, hfree⟩ with ⟨m, heq, hge, hfreem, hmin⟩
    refine ⟨m, ?_, ?_, ?_⟩
    · unfold addImageAutoId allocateImageItemId
      rw [hh]
      exact heq
    · intro h2 hsome
      cases hsome
      exact ⟨hge, hfreem, hmin⟩
    · intro hcon
      cases hcon

/-- C4 counterexample: with the single registered bin-item id BIN0002
the code allocates BIN0003, although the lowest unused four-digit
suffix is one, so the claim that the lowest unused suffix is allocated
fails. -/
theorem c4_counterexample :
    addImageAutoId exDocC4 = "BIN0003"
    ∧ binFormat 1 = "BIN0001"
    ∧ "BIN0001" ∉ ["BIN0002"]
    ∧ addImageAutoId exDocC4 ≠ "BIN0001" :=
  ⟨by decide, by decide, by decide, by decide⟩

/-- C4 witness: on a document without headers the allocation starts at
one and yields BIN0001. -/
theorem c4_witness :
    ∃ m, addImageAutoId exDocEmpty = binFormat m
      ∧ (∀ h, exDocEmpty.headers.head? = some h →
          ((h.binItems.map (fun bi => attrGetD bi "id" "")).dedup.length + 1 ≤ m
          ∧ binFormat m ∉ (h.binItems.map (fun bi => attrGetD bi "id" "")).dedup
          ∧ ∀ j, (h.binItems.map (fun bi => attrGetD bi "id" "")).dedup.length + 1 ≤ j →
              j < m → binFormat j ∈ (h.binItems.map (fun bi => attrGetD bi "id" "")).dedup))
      ∧ (exDocEmpty.headers.head? = none → m = 1) :=
  c4_image_id_allocation exDocEmpty

/-- The header scan finds nothing when no bin item BinData value
starts with the item id. -/
theorem findBinItemMatch_none (itemId : String) :
    ∀ l, (∀ bi ∈ l, pyStartsWith (attrGetD bi "BinData" "") itemId = false) →
      findBinItemMatch itemId l = none := by
  intro l
  induction l with
  | nil => intro _; rfl
  | cons bi t ih =>
    intro h
    unfold findBinItemMatch
    simp only [h bi (List.mem_cons_self bi t), Bool.false_eq_true, if_false]
    exact ih (fun x hx => h x (List.mem_cons_of_mem bi hx))

/-- remove_manifest_item removes nothing and reports false when no
manifest item carries the id. -/
theorem removeManifestItem_none (L : Lxml) (pkg : HwpxPackage) (itemId : String)
    (h2 : ∀ d root, alLookup manifestPath pkg.files = some d → parseXml L d = some root →
        ∀ it ∈ manifestItemsOf root, ¬ attrGet it.attrs "id" = some itemId) :
    removeManifestItem L pkg itemId = (false, pkg) := by
  unfold removeManifestItem
  cases hd : alLookup manifestPath pkg.files with
  | none => rfl
  | some d =>
    cases hp : parseXml L d with
    | none => simp [hp]
    | some root =>
      have hany : (manifestItemsOf root).any
          (fun it => attrGet it.attrs "id" = some itemId) = false := by
        rw [List.any_eq_false]
        intro it hit
        simpa using h2 d root hd hp it hit
      simp [hp, hany]

/-- An item of a manifest child located by find? is among the manifest
items of the root. -/
theorem mem_manifestItemsOf_of_find (root mel : Xml)
    (hm : root.children.find? (fun m => m.tag = opfTag "manifest") = some mel) :
    ∀ it ∈ mel.children.filter (fun i => i.tag = opfTag "item"),
      it ∈ manifestItemsOf root := by
  intro it hit
  have hmel : mel ∈ root.children.filter (fun m => m.tag = opfTag "manifest") := by
    have h1 := List.mem_of_find?_eq_some hm
    have h2 := List.find?_some hm
    exact List.mem_filter.mpr ⟨h1, h2⟩
  unfold manifestItemsOf
  exact List.mem_flatMap.mpr ⟨mel, hmel, hit⟩

/-- C5: remove_image on an item id matching no embedded image, in the
header bin-item registry or the manifest, returns false, raises
nothing, and leaves the document state unchanged. -/
theorem c5_remove_image_unknown (L : Lxml) (doc : HwpxDocModel) (itemId : String)
    (h1 : ∀ hh, doc.headers.head? = some hh →
        ∀ bi ∈ hh.binItems, pyStartsWith (attrGetD bi "BinData" "") itemId = false)
    (h2 : ∀ d root, alLookup manifestPath doc.pkg.files = some d → parseXml L d = some root →
        ∀ it ∈ manifestItemsOf root, ¬ attrGet it.attrs "id" = some itemId) :
    removeImage L doc itemId = (none, false, doc) := by
  have hfind : ∀ mel, manifestElement L doc.pkg = some mel →
      (mel.children.filter (fun i => i.tag = opfTag "item")).find?
        (fun it => attrGet it.attrs "id" = some itemId) = none := by
    intro mel hml
    rw [List.find?_eq_none]
    intro it hit
    unfold manifestElement at hml
    cases hd : alLookup manifestPath doc.pkg.files with
    | none => simp [hd] at hml
    | some d =>
      cases hp : parseXml L d with
      | none => simp [hd, hp] at hml
      | some root =>
        have hml2 : root.children.find? (fun m => m.tag = opfTag "manifest") = some mel := by
          simpa [hd, hp] using hml
        have hmem := mem_manifestItemsOf_of_find root mel hml2 it hit
        simpa using h2 d root hd hp it hmem
  cases hh : doc.headers.head? with
  | none =>
    cases hml : manifestElement L doc.pkg with
    | none =>
      simp [removeImage, hh, hml, removeManifestItem_none L doc.pkg itemId h2]
    | some mel =>
      simp [removeImage, hh, hml, hfind mel hml,
        removeManifestItem_none L doc.pkg itemId h2]
  | some hd =>
    cases hml : manifestElement L doc.pkg with
    | none =>
      simp [removeImage, hh, hml, findBinItemMatch_none itemId hd.binItems (h1 hd hh),
        removeManifestItem_none L doc.pkg itemId h2]
    | some mel =>
      simp [removeImage, hh, hml, hfind mel hml,
        findBinItemMatch_none itemId hd.binItems (h1 hd hh),
        removeManifestItem_none L doc.pkg itemId h2]

/-- C5 witness: removing an unknown image id from the concrete example
document returns false without raising and changes nothing. -/
theorem c5_witness : removeImage exL exDocEmpty "BIN9999" = (none, false, exDocEmpty) := by
  refine c5_remove_image_unknown exL exDocEmpty "BIN9999" ?_ ?_
  · intro hh h bi hbi
    simp [exDocEmpty] at h
  · intro d root hd hp it hit
    have hl : alLookup manifestPath exDocEmpty.pkg.files = some exManifestBytes := rfl
    rw [hl] at hd
    have hd2 : d = exManifestBytes := (Option.some.inj hd).symm
    rw [hd2] at hp
    have hpn : parseXml exL exManifestBytes = none := rfl
    rw [hpn] at hp
    cases hp
